import Mathlib

/-!
Shallow embedding of the Iowa Hold'em server (`src/server.js`, the main variant).

The server is a socket-driven rules engine.  We embed its per-room state
(`Room`) and the handlers `joinRoom`, `playerAction`, together with the
internal functions `startHand`, `advancePhase`, `nextTurn`, `promptDiscard`,
`promptPlayerAction`, `emitGameState`, as pure Lean functions from the room
state to a new room state plus a list of emitted socket events (`Emission`).

Modelling conventions, all taken from the JavaScript source:
  * JS numbers used for chips, pot, bets and raise amounts are embedded as
    `Int` (the code never guards against negative chips, e.g. blinds).
  * The JS object `room.bets` (playerId -> contributed-this-round) is an
    association list with first-match lookup and `|| 0` defaulting (`getBet`).
  * The JS object `room.discards` (playerId -> true) is a list of ids.
  * Array mutation through a `find`-obtained reference is `updateFirst`;
    mutation through an index reference is `modifyIdx`.
  * `Math.random`-driven shuffling is not embedded; `startHand` and
    `joinRoom` take the shuffled deck as an explicit parameter.
  * The guarded do/while scan of `nextTurn` becomes `scanGoAux`, whose fuel
    `players.length + 1` is exactly the bound enforced by the `attempts`
    counter in the source, so the fuel case is unreachable.  The unguarded
    do/while scan of the discard branch becomes `discardScanAux` with fuel
    `players.length`; in the source that loop runs only when a non-folded
    player remains, which keeps it within this fuel.
  * `room.deck.shift()` on an empty deck would push `undefined` in JS; the
    embedding leaves the community unchanged there (no claim reaches that
    state).
  * A `null` phase would make `room.phase.endsWith` throw in JS;
    `phaseEndsWith none _ = false` here, and theorems about the handlers
    fix the phase by hypothesis, staying away from that crash.
-/

/-- A card, an immutable (rank, suit) pair of strings, as built by
`createDeck` in the source. -/
structure Card where
  rank : String
  suit : String
deriving DecidableEq

/-- The suit symbols `SUITS` from the source. -/
def SUITS : List String := ["S", "H", "D", "C"]

/-- The rank strings `RANKS` from the source. -/
def RANKS : List String := ["2", "3", "4", "5", "6", "7", "8", "9", "10", "J", "Q", "K", "A"]

/-- `createDeck`: all 52 (rank, suit) pairs, suits outer, ranks inner. -/
def createDeck : List Card :=
  (SUITS.map (fun s => RANKS.map (fun r => Card.mk r s))).flatten

/-- A seated player: connection id, name, hand, chips, folded flag
(the object pushed by the `joinRoom` handler). -/
structure SPlayer where
  id : String
  name : String
  hand : List Card
  chips : Int
  folded : Bool
deriving DecidableEq

/-- Per-room state, exactly the object created by the `joinRoom` handler. -/
structure Room where
  players : List SPlayer
  deck : List Card
  community : List Card
  pot : Int
  phase : Option String
  turnIndex : Nat
  currentBet : Int
  bets : List (String × Int)
  discards : List String
  dealerIndex : Int
  startingTurnIndex : Nat
deriving DecidableEq

/-- The fixed phase sequence `PHASES` from the source. -/
def PHASES : List String :=
  ["pre-flop-betting", "flop-deal", "flop-discard", "flop-betting",
   "turn-deal", "turn-discard", "turn-betting",
   "river-deal", "river-discard", "river-betting", "showdown"]

/-- `SMALL_BLIND` from the source. -/
def SMALL_BLIND : Int := 1

/-- `BIG_BLIND` from the source. -/
def BIG_BLIND : Int := 2

/-- `STARTING_CHIPS` from the source. -/
def STARTING_CHIPS : Int := 200

/-- The view of one player inside a `gameState` payload
(the object built by the `map` in `emitGameState`).  A masked hand is a
list of `none` entries standing for the `null` fills. -/
structure PlayerView where
  id : String
  name : String
  chips : Int
  folded : Bool
  hand : List (Option Card)
  bet : Int
  isDealer : Bool
  isSmallBlind : Bool
  isBigBlind : Bool
deriving DecidableEq

/-- The full `gameState` payload sent to one connection. -/
structure GameStatePayload where
  players : List PlayerView
  community : List Card
  pot : Int
  phase : Option String
  turnId : Option String
  currentBet : Int
deriving DecidableEq

/-- One socket emission performed by the server. -/
inductive Emission where
  | errorMessage (target : String) (msg : String)
  | statusRoom (msg : String)
  | statusTo (target : String) (msg : String)
  | yourTurn (target : String) (phase : Option String) (currentBet : Option Int)
  | gameState (target : String) (payload : GameStatePayload)
  | showdownRoom
  | roomFull (target : String)
  | scheduleNextHand (roomId : String)
deriving DecidableEq

/-- The argument object of a `playerAction` message. -/
structure ActionInput where
  action : String
  amount : Option Int
  discardIndices : Option (List Int)
deriving DecidableEq

/-- `room.bets[id] || 0`: first-match association-list lookup with default 0. -/
def getBet (bets : List (String × Int)) (id : String) : Int :=
  match bets.find? (fun p => p.1 == id) with
  | some p => p.2
  | none => 0

/-- `room.bets[id] = v`: overwrite the key if present, else append it. -/
def setBet (bets : List (String × Int)) (id : String) (v : Int) : List (String × Int) :=
  if (bets.find? (fun p => p.1 == id)).isSome then
    bets.map (fun p => if p.1 == id then (id, v) else p)
  else
    bets ++ [(id, v)]

/-- `room.discards[id] = true`: record `id` in the discard set. -/
def insertId (ds : List String) (id : String) : List String :=
  if ds.contains id then ds else ds ++ [id]

/-- Mutation of the first player whose `id` matches, as done through the
reference obtained by `room.players.find(p => p.id === socket.id)`. -/
def updateFirst (ps : List SPlayer) (id : String) (f : SPlayer → SPlayer) : List SPlayer :=
  match ps with
  | [] => []
  | p :: rest => if p.id == id then f p :: rest else p :: updateFirst rest id f

/-- Mutation of the player at a given index, as done through
`room.players[i]` references in `startHand`. -/
def modifyIdx (ps : List SPlayer) (i : Nat) (f : SPlayer → SPlayer) : List SPlayer :=
  match ps[i]? with
  | some p => ps.set i (f p)
  | none => ps

/-- `room.players[k].folded` (in the source every such read happens at an
in-range index; the default is never used there). -/
def foldedAt (ps : List SPlayer) (k : Nat) : Bool :=
  ((ps[k]?).map (fun p => p.folded)).getD false

/-- The do/while scan of `nextTurn`:
`do { nextIndex = (nextIndex+1) % n; attempts++; if (attempts > n) break; }
while (players[nextIndex].folded)`.  Returns the final `nextIndex` and the
final `attempts` count.  The fuel argument is called with
`players.length + 1`, which the `attempts > players.length` break never
exceeds, so the fuel-exhaustion case is unreachable. -/
def scanGoAux (ps : List SPlayer) (cur attempts : Nat) : Nat → Nat × Nat
  | 0 => (cur, attempts)
  | f + 1 =>
    let next := (cur + 1) % ps.length
    let att := attempts + 1
    if att > ps.length then (next, att)
    else if foldedAt ps next then scanGoAux ps next att f
    else (next, att)

/-- The scan of `nextTurn` started as in the source (`attempts = 0`). -/
def scanGo (ps : List SPlayer) (cur : Nat) : Nat × Nat :=
  scanGoAux ps cur 0 (ps.length + 1)

/-- The unguarded do/while of the discard branch:
`do { turnIndex = (turnIndex+1) % n } while (players[turnIndex].folded)`.
In the source it runs only when some non-folded player has not discarded,
which bounds it by `players.length` steps, the fuel it is called with. -/
def discardScanAux (ps : List SPlayer) (cur : Nat) : Nat → Nat
  | 0 => cur
  | f + 1 =>
    let next := (cur + 1) % ps.length
    if foldedAt ps next then discardScanAux ps next f else next

/-- `Math.max(...bets)` over the non-empty list built in `nextTurn`
(the source only evaluates it when at least two active players remain). -/
def maxOf (l : List Int) : Int :=
  match l with
  | [] => 0
  | x :: xs => xs.foldl max x

/-- `PHASES.indexOf(phase)` helper: index of the first match, else -1. -/
def strIndexOfAux (s : String) : List String → Int → Int
  | [], _ => -1
  | x :: xs, k => if x == s then k else strIndexOfAux s xs (k + 1)

/-- `list.indexOf(x)` where `x` may be the `null` phase (JS returns -1). -/
def jsIndexOf (l : List String) (x : Option String) : Int :=
  match x with
  | some s => strIndexOfAux s l 0
  | none => -1

/-- `room.phase.endsWith(suffix)`; the `null` phase is mapped to `false`
(in JS it would throw; no claim exercises that state). -/
def phaseEndsWith (ph : Option String) (sfx : String) : Bool :=
  match ph with
  | some s => sfx.data.isSuffixOf s.data
  | none => false

/-- The guarded single-card splice of the discard branch:
`if (i >= 0 && i < hand.length) hand.splice(i, 1)`. -/
def eraseAtInt (h : List Card) (i : Int) : List Card :=
  if 0 ≤ i ∧ i.toNat < h.length then h.eraseIdx i.toNat else h

/-- Apostrophe character, used in status texts. -/
def apos : String := String.singleton (Char.ofNat 39)

/-- The per-viewer `gameState` payload built by `emitGameState`: the
viewer's own hand is sent as-is, every other hand is replaced by
`Array(hand.length).fill(null)`. -/
def gameStatePayloadFor (r : Room) (viewer : String) : GameStatePayload :=
  { players := r.players.enum.map (fun q =>
      { id := q.2.id
        name := q.2.name
        chips := q.2.chips
        folded := q.2.folded
        hand := if q.2.id == viewer then q.2.hand.map some
                else List.replicate q.2.hand.length none
        bet := getBet r.bets q.2.id
        isDealer := r.dealerIndex == (q.1 : Int)
        isSmallBlind := r.dealerIndex != -1 &&
          ((q.1 : Int) == (r.dealerIndex + 1) % (r.players.length : Int))
        isBigBlind := r.dealerIndex != -1 &&
          ((q.1 : Int) == (r.dealerIndex + 2) % (r.players.length : Int)) })
    community := r.community
    pot := r.pot
    phase := r.phase
    turnId := (r.players[r.turnIndex]?).map (fun p => p.id)
    currentBet := r.currentBet }

/-- `emitGameState(roomId)`: one `gameState` unicast per seated player. -/
def emitGameStateEms (r : Room) : List Emission :=
  r.players.map (fun p => Emission.gameState p.id (gameStatePayloadFor r p.id))

/-- `promptDiscard(roomId)`: room-wide status plus a `yourTurn` unicast with
phase `'discard'` to the player at `turnIndex`. -/
def promptDiscardEms (r : Room) : List Emission :=
  let nm := ((r.players[r.turnIndex]?).map (fun p => p.name)).getD ""
  let pid := ((r.players[r.turnIndex]?).map (fun p => p.id)).getD ""
  [Emission.statusRoom ("Player " ++ nm ++ ", discard one card."),
   Emission.yourTurn pid (some "discard") none]

/-- `promptPlayerAction(roomId)`: room-wide status plus a `yourTurn`
unicast carrying the phase and current bet. -/
def promptActionEms (r : Room) : List Emission :=
  let nm := ((r.players[r.turnIndex]?).map (fun p => p.name)).getD ""
  let pid := ((r.players[r.turnIndex]?).map (fun p => p.id)).getD ""
  [Emission.statusRoom ("Player " ++ nm ++ ", it" ++ apos ++ "s your turn."),
   Emission.yourTurn pid r.phase (some r.currentBet)]

/-- `advancePhase(roomId)`: step `room.phase` to `PHASES[indexOf(phase)+1]`
and run that phase's switch case. -/
def advancePhase (r : Room) : Room × List Emission :=
  let idx := jsIndexOf PHASES r.phase + 1
  if idx ≥ (PHASES.length : Int) then
    let r1 : Room := { r with phase := some "showdown" }
    (r1, [Emission.showdownRoom] ++ emitGameStateEms r1)
  else
    let ph := (PHASES[idx.toNat]?).getD ""
    let r1 : Room := { r with phase := some ph }
    if ph = "flop-deal" then
      let r2 : Room := { r1 with community := r1.community ++ r1.deck.take 3,
                                 deck := r1.deck.drop 3, turnIndex := 0, discards := [] }
      (r2, emitGameStateEms r2 ++ promptDiscardEms r2)
    else if ph = "flop-discard" ∨ ph = "turn-discard" ∨ ph = "river-discard" then
      (r1, [])
    else if ph = "flop-betting" ∨ ph = "turn-betting" ∨ ph = "river-betting" then
      let r2 : Room := { r1 with currentBet := 0, bets := [], discards := [],
                                 startingTurnIndex := r1.turnIndex }
      (r2, emitGameStateEms r2 ++ promptActionEms r2)
    else if ph = "turn-deal" ∨ ph = "river-deal" then
      let r2 : Room := { r1 with community := r1.community ++ r1.deck.take 1,
                                 deck := r1.deck.drop 1, turnIndex := 0, discards := [] }
      (r2, emitGameStateEms r2 ++ promptDiscardEms r2)
    else if ph = "showdown" then
      (r1, [Emission.showdownRoom] ++ emitGameStateEms r1)
    else
      (r1, [])

/-- `nextTurn(roomId)`: advance `turnIndex` past folded seats with the
guarded circular scan; if at most one active player remains, announce the
fold-out win (to `players[0]`!) and schedule `startHand('iowa-room')`;
otherwise close the betting round (all active bets equal `currentBet` and
the pointer is back at `startingTurnIndex`) or prompt the next actor. -/
def nextTurn (r : Room) : Room × List Emission :=
  let res := scanGo r.players r.turnIndex
  let r1 : Room := { r with turnIndex := res.1 }
  let active := r1.players.filter (fun p => !p.folded)
  if active.length ≤ 1 then
    (r1, [Emission.statusTo (((r1.players.head?).map (fun p => p.id)).getD "")
            "You win! Others folded.",
          Emission.scheduleNextHand "iowa-room"])
  else
    let bs := active.map (fun p => getBet r1.bets p.id)
    let mx := maxOf bs
    let allEqual := bs.all (fun b => b == mx)
    if allEqual && (mx == r1.currentBet) && (r1.turnIndex == r1.startingTurnIndex) then
      advancePhase r1
    else
      (r1, promptActionEms r1)

/-- The discard sub-handler of `playerAction` (the body of
`if (room.phase.endsWith('discard'))` in the source): reject non-discard
actions and malformed index lists; splice the single card out of the
hand; record the discard; advance the phase when every non-folded player
has discarded, else scan to the next non-folded seat and prompt it. -/
def discardBranch (r : Room) (sid : String) (inp : ActionInput) : Room × List Emission :=
  if inp.action ≠ "discard" then
    (r, [Emission.errorMessage sid "You must discard a card now."])
  else
    match inp.discardIndices with
    | some [i] =>
      let players1 := updateFirst r.players sid
        (fun p => { p with hand := eraseAtInt p.hand i })
      let r1 : Room := { r with players := players1,
                                discards := insertId r.discards sid }
      let allD := (r1.players.filter (fun p => !p.folded)).all
        (fun p => r1.discards.contains p.id)
      if allD then
        let res := advancePhase r1
        (res.1, res.2 ++ emitGameStateEms res.1)
      else
        let j := discardScanAux r1.players r1.turnIndex r1.players.length
        let r2 : Room := { r1 with turnIndex := j }
        (r2, promptDiscardEms r2 ++ emitGameStateEms r2)
    | _ => (r, [Emission.errorMessage sid "Must discard exactly one card."])

/-- The betting switch of `playerAction` (the `switch (action)` in the
source), followed by the trailing `emitGameState`.  `player` is the seat
found for the acting connection. -/
def bettingBranch (r : Room) (sid : String) (player : SPlayer) (inp : ActionInput) :
    Room × List Emission :=
  if inp.action = "fold" then
    let b := getBet r.bets sid
    let r1 : Room := { r with
      players := updateFirst r.players sid (fun p => { p with folded := true }),
      bets := setBet (setBet r.bets sid b) sid 0,
      pot := r.pot + b }
    let res := nextTurn r1
    (res.1, res.2 ++ emitGameStateEms res.1)
  else if inp.action = "check" then
    if getBet r.bets sid < r.currentBet then
      (r, [Emission.errorMessage sid "Cannot check, you must call or raise."])
    else
      let res := nextTurn r
      (res.1, res.2 ++ emitGameStateEms res.1)
  else if inp.action = "call" then
    let toCall := r.currentBet - getBet r.bets sid
    if player.chips < toCall then
      (r, [Emission.errorMessage sid "Not enough chips to call."])
    else
      let r1 : Room := { r with
        players := updateFirst r.players sid (fun p => { p with chips := p.chips - toCall }),
        pot := r.pot + toCall,
        bets := setBet r.bets sid r.currentBet }
      let res := nextTurn r1
      (res.1, res.2 ++ emitGameStateEms res.1)
  else if inp.action = "raise" then
    match inp.amount with
    | none => (r, [Emission.errorMessage sid "Raise must be higher than current bet."])
    | some a =>
      if a = 0 ∨ a ≤ r.currentBet then
        (r, [Emission.errorMessage sid "Raise must be higher than current bet."])
      else
        let toPut := a - getBet r.bets sid
        if player.chips < toPut then
          (r, [Emission.errorMessage sid "Not enough chips to raise."])
        else
          let r1 : Room := { r with
            players := updateFirst r.players sid (fun p => { p with chips := p.chips - toPut }),
            pot := r.pot + toPut,
            currentBet := a,
            bets := setBet r.bets sid a }
          let res := nextTurn r1
          (res.1, res.2 ++ emitGameStateEms res.1)
  else
    (r, [Emission.errorMessage sid "Unknown action."] ++ emitGameStateEms r)

/-- The `playerAction` socket handler.  Returns the new room state and the
emissions, in source order: turn gate, folded-player drop, then the
discard sub-handler when the phase name ends with `discard`, else the
fold/check/call/raise/default switch followed by `emitGameState`. -/
def playerAction (r : Room) (sid : String) (inp : ActionInput) : Room × List Emission :=
  if ((r.players[r.turnIndex]?).map (fun p => p.id)) ≠ some sid then
    (r, [Emission.errorMessage sid "Not your turn."])
  else
    match r.players.find? (fun p => p.id == sid) with
    | none => (r, [])
    | some player =>
      if player.folded then (r, [])
      else if phaseEndsWith r.phase "discard" then discardBranch r sid inp
      else bettingBranch r sid player inp

/-- The dealing loop of `startHand`: reset `folded`, splice 5 cards off the
front of the deck for each player in seat order. -/
def dealHands (ps : List SPlayer) (deck : List Card) : List SPlayer × List Card :=
  match ps with
  | [] => ([], deck)
  | p :: rest =>
    let res := dealHands rest (deck.drop 5)
    ({ p with folded := false, hand := deck.take 5 } :: res.1, res.2)

/-- `startHand(roomId)`: reset the hand state, rotate the dealer, deal 5
cards each, post blinds from the two seats after the dealer, set
`currentBet`, the turn pointer and the closure anchor, and enter
pre-flop betting.  The shuffled deck is a parameter (see the header). -/
def startHand (shuffled : List Card) (r : Room) : Room × List Emission :=
  let n := r.players.length
  let dealerIdx := (r.dealerIndex + 1) % (n : Int)
  let dealt := dealHands r.players shuffled
  let sb := ((dealerIdx + 1) % (n : Int)).toNat
  let bb := ((dealerIdx + 2) % (n : Int)).toNat
  let players2 := modifyIdx dealt.1 sb (fun p => { p with chips := p.chips - SMALL_BLIND })
  let players3 := modifyIdx players2 bb (fun p => { p with chips := p.chips - BIG_BLIND })
  let sbId := ((dealt.1[sb]?).map (fun p => p.id)).getD ""
  let bbId := ((dealt.1[bb]?).map (fun p => p.id)).getD ""
  let turn := (((bb : Int) + 1) % (n : Int)).toNat
  let r1 : Room := { r with
    phase := some "pre-flop-betting",
    deck := dealt.2,
    community := [],
    pot := SMALL_BLIND + BIG_BLIND,
    bets := setBet (setBet [] sbId SMALL_BLIND) bbId BIG_BLIND,
    discards := [],
    currentBet := BIG_BLIND,
    dealerIndex := dealerIdx,
    players := players3,
    turnIndex := turn,
    startingTurnIndex := turn }
  (r1, emitGameStateEms r1 ++ promptActionEms r1)

/-- The `joinRoom` handler on an existing room: reject with `roomFull` at
5 seats, silently return if the connection is already seated, else seat
the player, greet, broadcast, and start a hand once 2+ players are seated
and no hand is running.  The shuffled deck that `startHand` would draw is
a parameter. -/
def joinRoom (shuffled : List Card) (r : Room) (sid nm : String) : Room × List Emission :=
  if r.players.length ≥ 5 then (r, [Emission.roomFull sid])
  else if (r.players.find? (fun p => p.id == sid)).isSome then (r, [])
  else
    let r1 : Room := { r with players := r.players ++
      [{ id := sid, name := if nm = "" then "Anon" else nm,
         hand := [], chips := STARTING_CHIPS, folded := false }] }
    let ems := [Emission.statusTo sid ("Welcome, " ++ nm ++ "! Waiting for players...")]
      ++ emitGameStateEms r1
    if r1.players.length ≥ 2 && r1.phase.isNone then
      let res := startHand shuffled r1
      (res.1, ems ++ res.2)
    else
      (r1, ems)

/-- Sum of all seated players' chips. -/
def sumChips (ps : List SPlayer) : Int :=
  (ps.map (fun p => p.chips)).sum

/-- Sum of the tracked per-round bets of the seated players. -/
def sumBets (r : Room) : Int :=
  (r.players.map (fun p => getBet r.bets p.id)).sum

/-- The quantity named by the spec's conservation invariant:
pot + Σ bets + Σ chips. -/
def specMeasure (r : Room) : Int :=
  r.pot + sumBets r + sumChips r.players

/-- pot + Σ chips, the quantity the code actually conserves on
non-fold actions (bets being a memo of amounts already in the pot). -/
def potChips (r : Room) : Int :=
  r.pot + sumChips r.players

/-- Chips of the (first) player with the given id, 0 if absent. -/
def chipsOf (r : Room) (sid : String) : Int :=
  ((r.players.find? (fun p => p.id == sid)).map (fun p => p.chips)).getD 0

/-- Hand of the (first) player with the given id, `[]` if absent. -/
def handOf (r : Room) (sid : String) : List Card :=
  ((r.players.find? (fun p => p.id == sid)).map (fun p => p.hand)).getD []

/-- The betting phase that follows a discard phase in `PHASES`. -/
def bettingAfter (ph : String) : String :=
  if ph = "flop-discard" then "flop-betting"
  else if ph = "turn-discard" then "turn-betting"
  else if ph = "river-discard" then "river-betting"
  else ph

/-- Is an emission an `errorMessage`? -/
def isErr (e : Emission) : Bool :=
  match e with
  | Emission.errorMessage _ _ => true
  | _ => false

/-- Target of an `errorMessage` emission. -/
def errTarget (e : Emission) : Option String :=
  match e with
  | Emission.errorMessage t _ => some t
  | _ => none

/-! Concrete scenario states used by the counterexample, code-bug and
witness theorems.  All are reachable shapes of the handlers' state: two to
five seated players, blinds-posted pots, per-round bet memos. -/

/-- A few concrete cards. -/
def cK : Card := ⟨"K", "S"⟩

/-- A concrete card. -/
def cQ : Card := ⟨"Q", "H"⟩

/-- A concrete card. -/
def cJ : Card := ⟨"J", "D"⟩

/-- A concrete card. -/
def c9 : Card := ⟨"9", "C"⟩

/-- A concrete card. -/
def c7 : Card := ⟨"7", "S"⟩

/-- A concrete card. -/
def c5 : Card := ⟨"5", "H"⟩

/-- A concrete card. -/
def c3 : Card := ⟨"3", "D"⟩

/-- A seated player shorthand. -/
def mkP (id : String) (chips : Int) (hand : List Card) (folded : Bool) : SPlayer :=
  { id := id, name := id, hand := hand, chips := chips, folded := folded }

/-- The `fold` action input. -/
def foldInp : ActionInput := { action := "fold", amount := none, discardIndices := none }

/-- The `check` action input. -/
def checkInp : ActionInput := { action := "check", amount := none, discardIndices := none }

/-- The `call` action input. -/
def callInp : ActionInput := { action := "call", amount := none, discardIndices := none }

/-- A `raise` to 10. -/
def raise10Inp : ActionInput := { action := "raise", amount := some 10, discardIndices := none }

/-- A single-card discard of index 0. -/
def disc0Inp : ActionInput := { action := "discard", amount := none, discardIndices := some [0] }

/-- Two players after blinds (small blind seat B still owing), B to act. -/
def c1Room : Room :=
  { players := [mkP "A" 198 [] false, mkP "B" 199 [] false],
    deck := [], community := [], pot := 3,
    phase := some "pre-flop-betting", turnIndex := 1, currentBet := 2,
    bets := [("A", 2), ("B", 1)], discards := [],
    dealerIndex := 0, startingTurnIndex := 1 }

/-- Two players, big blind posted by B, A to call. -/
def c2Room : Room :=
  { players := [mkP "A" 200 [] false, mkP "B" 198 [] false],
    deck := [cK, cQ, cJ], community := [], pot := 2,
    phase := some "pre-flop-betting", turnIndex := 0, currentBet := 2,
    bets := [("B", 2)], discards := [],
    dealerIndex := 0, startingTurnIndex := 0 }

/-- Two players with bets settled, pre-flop betting about to close. -/
def c3Room : Room :=
  { players := [mkP "A" 198 [] false, mkP "B" 198 [] false],
    deck := [cK, cQ, cJ], community := [], pot := 4,
    phase := some "pre-flop-betting", turnIndex := 0, currentBet := 2,
    bets := [("A", 2), ("B", 2)], discards := [],
    dealerIndex := 0, startingTurnIndex := 0 }

/-- Two players who both called 2 into the pot, A to act. -/
def c4Room : Room :=
  { players := [mkP "A" 198 [] false, mkP "B" 198 [] false],
    deck := [], community := [], pot := 4,
    phase := some "pre-flop-betting", turnIndex := 0, currentBet := 2,
    bets := [("A", 2), ("B", 2)], discards := [],
    dealerIndex := 0, startingTurnIndex := 0 }

/-- Three players on flop betting, fresh round, B (seat 1) to act. -/
def c5Room : Room :=
  { players := [mkP "A" 100 [] false, mkP "B" 100 [] false, mkP "C" 100 [] false],
    deck := [], community := [], pot := 0,
    phase := some "flop-betting", turnIndex := 1, currentBet := 0,
    bets := [], discards := [],
    dealerIndex := 0, startingTurnIndex := 0 }

/-- Two players in the flop discard phase, 5-card hands, cards left in the
deck, A (seat 0) to discard. -/
def c6Room : Room :=
  { players := [mkP "A" 100 [cK, cQ, cJ, c9, c7] false,
                mkP "B" 100 [c5, c3, cK, cQ, cJ] false],
    deck := [c7, c5], community := [], pot := 0,
    phase := some "flop-discard", turnIndex := 0, currentBet := 0,
    bets := [], discards := [],
    dealerIndex := 0, startingTurnIndex := 0 }

/-- A full room: five seated players, p1 among them. -/
def full5Room : Room :=
  { players := [mkP "p1" 200 [] false, mkP "p2" 200 [] false, mkP "p3" 200 [] false,
                mkP "p4" 200 [] false, mkP "p5" 200 [] false],
    deck := [], community := [], pot := 0,
    phase := some "pre-flop-betting", turnIndex := 0, currentBet := 0,
    bets := [], discards := [],
    dealerIndex := 0, startingTurnIndex := 0 }

/-- A room with four seats, p1 among them, not full. -/
def fourRoom : Room :=
  { players := [mkP "p1" 200 [] false, mkP "p2" 200 [] false, mkP "p3" 200 [] false,
                mkP "p4" 200 [] false],
    deck := [], community := [], pot := 0,
    phase := some "pre-flop-betting", turnIndex := 0, currentBet := 0,
    bets := [], discards := [],
    dealerIndex := 0, startingTurnIndex := 0 }

/-- Pointwise relation between two seated players that agree on everything
a `gameState` payload may reveal to `viewer`: identity, name, chips,
folded flag, hand LENGTH — and the full hand only when the player is the
viewer.  Opponents' hand contents are free to differ. -/
def pvEquiv (viewer : String) (p q : SPlayer) : Bool :=
  p.id == q.id && p.name == q.name && p.chips == q.chips && p.folded == q.folded &&
  p.hand.length == q.hand.length && (p.id != viewer || p.hand == q.hand)

/-- Two rooms that differ at most in the CONTENTS of hands of players other
than `viewer` (hand lengths and all payload-relevant room fields agree). -/
def sameUpToOpponentHands (viewer : String) (r1 r2 : Room) : Bool :=
  r1.players.length == r2.players.length &&
  (List.zip r1.players r2.players).all (fun pq => pvEquiv viewer pq.1 pq.2) &&
  r1.community == r2.community && r1.pot == r2.pot && r1.phase == r2.phase &&
  r1.turnIndex == r2.turnIndex && r1.currentBet == r2.currentBet &&
  r1.bets == r2.bets && r1.dealerIndex == r2.dealerIndex

/-- Two players mid-hand; B holds king, queen. -/
def c9RoomA : Room :=
  { players := [mkP "A" 198 [cK, cQ, cJ, c9, c7] false,
                mkP "B" 198 [cK, cQ, cJ, c9, c7] false],
    deck := [], community := [c5], pot := 4,
    phase := some "flop-betting", turnIndex := 0, currentBet := 0,
    bets := [], discards := [],
    dealerIndex := 0, startingTurnIndex := 0 }

/-- Same as `c9RoomA` except B holds five entirely different cards. -/
def c9RoomB : Room :=
  { players := [mkP "A" 198 [cK, cQ, cJ, c9, c7] false,
                mkP "B" 198 [c5, c3, c7, cQ, c9] false],
    deck := [], community := [c5], pot := 4,
    phase := some "flop-betting", turnIndex := 0, currentBet := 0,
    bets := [], discards := [],
    dealerIndex := 0, startingTurnIndex := 0 }

/-- Claim C1 (code bug evaluation): in a two-player hand with pot 3 and
bets still tracked, seat B's fold leaves exactly one non-folded player A,
and the handler emits the fold-out win status and schedules the next hand
— but A's chips stay at 198, not 198 + pot + bets = 204 as the claim
requires: the pot is never awarded. -/
theorem C1_code_bug_eval :
    chipsOf (playerAction c1Room "B" foldInp).1 "A" = 198 ∧
    (playerAction c1Room "B" foldInp).1.pot = 4 ∧
    getBet (playerAction c1Room "B" foldInp).1.bets "A" = 2 ∧
    Emission.scheduleNextHand "iowa-room" ∈ (playerAction c1Room "B" foldInp).2 ∧
    chipsOf (playerAction c1Room "B" foldInp).1 "A" ≠
      chipsOf c1Room "A" + (playerAction c1Room "B" foldInp).1.pot +
        sumBets (playerAction c1Room "B" foldInp).1 := by
  decide

/-- Claim C2 (counterexample): a single legal call changes
pot + Σ bets + Σ chips from 402 to 404 — the spec's quantity is not
invariant, because the code moves the called chips into the pot at call
time while also recording them in the bets memo. -/
theorem C2_counterexample :
    specMeasure c2Room = 402 ∧
    specMeasure (playerAction c2Room "A" callInp).1 = 404 := by
  decide

/-- Claim C3 (code bug evaluation): advancing the phase out of pre-flop
betting leaves the room's phase field at `flop-deal` (not at the following
discard phase), the room prompts seat A to discard while in that phase,
and A's prompted discard is then rejected as an unknown action with the
state unchanged: the room does wait for input in a deal phase. -/
theorem C3_code_bug_eval :
    (advancePhase c3Room).1.phase = some "flop-deal" ∧
    Emission.yourTurn "A" (some "discard") none ∈ (advancePhase c3Room).2 ∧
    phaseEndsWith (advancePhase c3Room).1.phase "discard" = false ∧
    (playerAction (advancePhase c3Room).1 "A" disc0Inp).1 = (advancePhase c3Room).1 ∧
    (playerAction (advancePhase c3Room).1 "A" disc0Inp).2.head? =
      some (Emission.errorMessage "A" "Unknown action.") := by
  decide

/-- Claim C4 (code bug evaluation): with two players who each moved 2
chips into the pot (pot 4, 396 chips remaining, total 400), A's fold adds
A's tracked contribution to the pot AGAIN: pot becomes 6 and
pot + Σ chips becomes 402 — the already-banked contribution is counted a
second time, with A's chips untouched and A's tracked bet zeroed. -/
theorem C4_code_bug_eval :
    sumChips c4Room.players + c4Room.pot = 400 ∧
    (playerAction c4Room "A" foldInp).1.pot = 6 ∧
    chipsOf (playerAction c4Room "A" foldInp).1 "A" = 198 ∧
    getBet (playerAction c4Room "A" foldInp).1.bets "A" = 0 ∧
    sumChips (playerAction c4Room "A" foldInp).1.players +
      (playerAction c4Room "A" foldInp).1.pot = 402 := by
  decide

/-- Claim C5 (counterexample): seat 1 raises to 10 in a three-player flop
betting round whose closure anchor is seat 0; the raise goes through
(currentBet 10, raiser's bet 10) but the closure anchor stays 0 — it is
NOT reset to the raiser's successor, seat (1+1) % 3 = 2. -/
theorem C5_counterexample :
    (playerAction c5Room "B" raise10Inp).1.currentBet = 10 ∧
    getBet (playerAction c5Room "B" raise10Inp).1.bets "B" = 10 ∧
    (playerAction c5Room "B" raise10Inp).1.startingTurnIndex = 0 ∧
    (playerAction c5Room "B" raise10Inp).1.startingTurnIndex ≠ (1 + 1) % 3 := by
  decide

/-- Claim C6 (counterexample): in the flop discard phase, seat A's legal
single-card discard shrinks A's hand from 5 cards to 4 and leaves the deck
untouched — no replacement card is drawn, so the hand does NOT stay at
5 cards. -/
theorem C6_counterexample :
    (handOf c6Room "A").length = 5 ∧
    (handOf (playerAction c6Room "A" disc0Inp).1 "A").length = 4 ∧
    (playerAction c6Room "A" disc0Inp).1.deck = c6Room.deck := by
  decide

/-- Claim C7 (counterexample): connection p1 is already seated in a full
five-seat room, yet its re-join is answered with `roomFull` — the
capacity check precedes the already-seated check, so the re-join is not
the error-free no-op the claim states. -/
theorem C7_counterexample :
    joinRoom [] full5Room "p1" "x" = (full5Room, [Emission.roomFull "p1"]) := by
  decide

/-- Bounds invariant of the guarded scan: starting below the seat count
with `attempts + fuel = players.length + 1` (the configuration the
`attempts > players.length` break maintains), the scan ends on an
in-range index having counted at most `players.length + 1` attempts. -/
theorem scanGoAux_bounds (ps : List SPlayer) :
    ∀ (f att cur : Nat), cur < ps.length → att + f = ps.length + 1 →
      (scanGoAux ps cur att f).1 < ps.length ∧
      (scanGoAux ps cur att f).2 ≤ ps.length + 1 := by
  intro f
  induction f with
  | zero =>
    intro att cur hc hinv
    simpa [scanGoAux] using ⟨hc, by omega⟩
  | succ f ih =>
    intro att cur hc hinv
    have hn : 0 < ps.length := by omega
    by_cases h1 : att + 1 > ps.length
    · simp only [scanGoAux, h1, if_true]
      exact ⟨Nat.mod_lt _ hn, by omega⟩
    · by_cases h2 : foldedAt ps ((cur + 1) % ps.length)
      · simp only [scanGoAux, h1, if_false]
        rw [if_pos h2]
        exact ih (att + 1) _ (Nat.mod_lt _ hn) (by omega)
      · simp only [scanGoAux, h1, if_false]
        rw [if_neg h2]
        exact ⟨Nat.mod_lt _ hn, by omega⟩

/-- Claim C10: the circular turn-advance scan of `nextTurn` always
terminates with an in-range seat index and examines at most
`players.length + 1` seats (the value of the `attempts` counter at exit),
for every non-empty player list and every starting index — including the
degenerate state where every seated player is folded.  Termination is by
construction (`scanGoAux` is total); the bounds are proved here. -/
theorem C10_scan_bounded :
    ∀ (ps : List SPlayer) (cur : Nat), ps ≠ [] →
      (scanGo ps cur).1 < ps.length ∧ (scanGo ps cur).2 ≤ ps.length + 1 := by
  intro ps cur hne
  have hn : 0 < ps.length := List.length_pos.mpr hne
  show (scanGoAux ps cur 0 (ps.length + 1)).1 < ps.length ∧
       (scanGoAux ps cur 0 (ps.length + 1)).2 ≤ ps.length + 1
  have h1 : ¬(0 + 1 > ps.length) := by omega
  by_cases h2 : foldedAt ps ((cur + 1) % ps.length)
  · simp only [scanGoAux, h1, if_false]
    rw [if_pos h2]
    exact scanGoAux_bounds ps ps.length 1 _ (Nat.mod_lt _ hn) (by omega)
  · simp only [scanGoAux, h1, if_false]
    rw [if_neg h2]
    exact ⟨Nat.mod_lt _ hn, by omega⟩

/-- Witness for C10 at a concrete three-player room. -/
theorem C10_scan_bounded_witness :
    (scanGo c5Room.players 0).1 < c5Room.players.length ∧
    (scanGo c5Room.players 0).2 ≤ c5Room.players.length + 1 :=
  C10_scan_bounded c5Room.players 0 (by decide)

/-- `emitGameState` never emits `errorMessage`. -/
theorem emitGameStateEms_no_err (r : Room) : ∀ e ∈ emitGameStateEms r, isErr e = false := by
  intro e he
  simp only [emitGameStateEms, List.mem_map] at he
  obtain ⟨p, _, rfl⟩ := he
  rfl

/-- `promptDiscard` never emits `errorMessage`. -/
theorem promptDiscardEms_no_err (r : Room) : ∀ e ∈ promptDiscardEms r, isErr e = false := by
  intro e he
  simp only [promptDiscardEms, List.mem_cons, List.not_mem_nil, or_false] at he
  rcases he with rfl | rfl <;> rfl

/-- `promptPlayerAction` never emits `errorMessage`. -/
theorem promptActionEms_no_err (r : Room) : ∀ e ∈ promptActionEms r, isErr e = false := by
  intro e he
  simp only [promptActionEms, List.mem_cons, List.not_mem_nil, or_false] at he
  rcases he with rfl | rfl <;> rfl

/-- Concatenation preserves error-freeness. -/
theorem no_err_append (a b : List Emission)
    (ha : ∀ e ∈ a, isErr e = false) (hb : ∀ e ∈ b, isErr e = false) :
    ∀ e ∈ a ++ b, isErr e = false := by
  intro e he
  rcases List.mem_append.mp he with h | h
  · exact ha e h
  · exact hb e h

/-- `advancePhase` never touches the seated players or the pot. -/
theorem advancePhase_keeps (r : Room) :
    (advancePhase r).1.players = r.players ∧ (advancePhase r).1.pot = r.pot := by
  unfold advancePhase
  dsimp only
  split_ifs <;> exact ⟨rfl, rfl⟩

/-- `advancePhase` never emits `errorMessage`. -/
theorem advancePhase_no_err (r : Room) : ∀ e ∈ (advancePhase r).2, isErr e = false := by
  unfold advancePhase
  dsimp only
  split_ifs
  all_goals
    first
    | exact fun e he => absurd he (List.not_mem_nil e)
    | exact no_err_append _ _
        (by intro e he; simp only [List.mem_singleton] at he; subst he; rfl)
        (emitGameStateEms_no_err _)
    | exact no_err_append _ _ (emitGameStateEms_no_err _) (promptDiscardEms_no_err _)
    | exact no_err_append _ _ (emitGameStateEms_no_err _) (promptActionEms_no_err _)

/-- `nextTurn` never touches the seated players or the pot. -/
theorem nextTurn_keeps (r : Room) :
    (nextTurn r).1.players = r.players ∧ (nextTurn r).1.pot = r.pot := by
  unfold nextTurn
  dsimp only
  split_ifs
  · exact ⟨rfl, rfl⟩
  · exact ⟨(advancePhase_keeps _).1, (advancePhase_keeps _).2⟩
  · exact ⟨rfl, rfl⟩

/-- `nextTurn` never emits `errorMessage`. -/
theorem nextTurn_no_err (r : Room) : ∀ e ∈ (nextTurn r).2, isErr e = false := by
  unfold nextTurn
  dsimp only
  split_ifs
  · intro e he
    simp only [List.mem_cons, List.not_mem_nil, or_false] at he
    rcases he with rfl | rfl <;> rfl
  · exact advancePhase_no_err _
  · exact promptActionEms_no_err _

/-- An error-free emission list satisfies both C8 obligations vacuously. -/
theorem c8Helper {sid : String} {r0 r1 : Room} {es : List Emission}
    (h : ∀ e ∈ es, isErr e = false) :
    (es.any isErr = true → r1 = r0) ∧
    (∀ e ∈ es, isErr e = true → errTarget e = some sid) := by
  constructor
  · intro habs
    exfalso
    rcases List.any_eq_true.mp habs with ⟨e, he, herr⟩
    rw [h e he] at herr
    cases herr
  · intro e he herr
    rw [h e he] at herr
    cases herr

/-- C8 obligations hold for the discard sub-handler. -/
theorem discardBranch_c8 (r : Room) (sid : String) (inp : ActionInput) :
    ((discardBranch r sid inp).2.any isErr = true → (discardBranch r sid inp).1 = r) ∧
    (∀ e ∈ (discardBranch r sid inp).2, isErr e = true → errTarget e = some sid) := by
  unfold discardBranch
  dsimp only
  repeat' split
  all_goals
    first
    | exact c8Helper (no_err_append _ _ (advancePhase_no_err _) (emitGameStateEms_no_err _))
    | exact c8Helper (no_err_append _ _ (promptDiscardEms_no_err _) (emitGameStateEms_no_err _))
    | (refine ⟨fun _ => rfl, ?_⟩
       intro e he herr
       simp only [List.mem_cons, List.not_mem_nil, or_false] at he
       subst he
       rfl)

/-- C8 obligations hold for the betting switch. -/
theorem bettingBranch_c8 (r : Room) (sid : String) (player : SPlayer) (inp : ActionInput) :
    ((bettingBranch r sid player inp).2.any isErr = true →
      (bettingBranch r sid player inp).1 = r) ∧
    (∀ e ∈ (bettingBranch r sid player inp).2, isErr e = true → errTarget e = some sid) := by
  unfold bettingBranch
  dsimp only
  repeat' split
  all_goals
    first
    | exact c8Helper (no_err_append _ _ (nextTurn_no_err _) (emitGameStateEms_no_err _))
    | (refine ⟨fun _ => rfl, ?_⟩
       intro e he herr
       rcases List.mem_append.mp he with hm | hm
       · simp only [List.mem_cons, List.not_mem_nil, or_false] at hm
         subst hm
         rfl
       · rw [emitGameStateEms_no_err _ e hm] at herr
         cases herr)
    | (refine ⟨fun _ => rfl, ?_⟩
       intro e he herr
       simp only [List.mem_cons, List.not_mem_nil, or_false] at he
       subst he
       rfl)

/-- Claim C8: every rejected `playerAction` (acting out of turn, wrong
action in a discard phase, malformed discard, illegal check, insufficient
chips to call or raise, under-raise, unknown action) addresses its
`errorMessage` only to the offending connection `sid`, and whenever any
`errorMessage` is emitted the room state is returned unchanged — no field
of the room is mutated on a rejection. -/
theorem C8_rejections_safe :
    ∀ (r : Room) (sid : String) (inp : ActionInput),
      ((playerAction r sid inp).2.any isErr = true → (playerAction r sid inp).1 = r) ∧
      (∀ e ∈ (playerAction r sid inp).2, isErr e = true → errTarget e = some sid) := by
  intro r sid inp
  unfold playerAction
  repeat' split
  all_goals
    first
    | exact ⟨fun _ => rfl, fun e he => absurd he (List.not_mem_nil e)⟩
    | exact discardBranch_c8 r sid inp
    | exact bettingBranch_c8 r sid _ inp
    | (refine ⟨fun _ => rfl, ?_⟩
       intro e he herr
       simp only [List.mem_cons, List.not_mem_nil, or_false] at he
       subst he
       rfl)

/-- Witness for C8: an out-of-turn check in `c1Room` (seat B holds the
turn) is rejected and the room is returned unchanged. -/
theorem C8_rejections_safe_witness :
    (playerAction c1Room "A" checkInp).1 = c1Room :=
  (C8_rejections_safe c1Room "A" checkInp).1 (by decide)

/-- Unfolding of `sumChips` over a cons. -/
theorem sumChips_cons (p : SPlayer) (rest : List SPlayer) :
    sumChips (p :: rest) = p.chips + sumChips rest := by
  simp [sumChips]

/-- A hand-only mutation through `updateFirst` leaves the chip sum alone. -/
theorem sumChips_updateFirst_hand (ps : List SPlayer) (id : String) (g : SPlayer → List Card) :
    sumChips (updateFirst ps id (fun p => { p with hand := g p })) = sumChips ps := by
  induction ps with
  | nil => rfl
  | cons p rest ih =>
    by_cases hp : (p.id == id) = true
    · simp [updateFirst, hp, sumChips_cons]
    · simp [updateFirst, hp, sumChips_cons, ih]

/-- Marking a seat folded leaves the chip sum alone. -/
theorem sumChips_updateFirst_folded (ps : List SPlayer) (id : String) :
    sumChips (updateFirst ps id (fun p => { p with folded := true })) = sumChips ps := by
  induction ps with
  | nil => rfl
  | cons p rest ih =>
    by_cases hp : (p.id == id) = true
    · simp [updateFirst, hp, sumChips_cons]
    · simp [updateFirst, hp, sumChips_cons, ih]

/-- Debiting `c` chips from the acting seat lowers the chip sum by `c`,
provided the seat exists. -/
theorem sumChips_updateFirst_chips (ps : List SPlayer) (id : String) (c : Int)
    (hf : (ps.find? (fun p => p.id == id)).isSome = true) :
    sumChips (updateFirst ps id (fun p => { p with chips := p.chips - c })) = sumChips ps - c := by
  induction ps with
  | nil => simp [List.find?] at hf
  | cons p rest ih =>
    by_cases hp : (p.id == id) = true
    · simp [updateFirst, hp, sumChips_cons]
      ring
    · have hf2 : (rest.find? (fun q => q.id == id)).isSome = true := by
        rw [List.find?_cons_of_neg] at hf
        · exact hf
        · simpa using hp
      simp [updateFirst, hp, sumChips_cons, ih hf2]
      ring

/-- `advancePhase` leaves the seated players untouched. -/
theorem advancePhase_players (r : Room) : (advancePhase r).1.players = r.players := by
  unfold advancePhase
  dsimp only
  split_ifs <;> rfl

/-- `advancePhase` leaves the pot untouched. -/
theorem advancePhase_pot (r : Room) : (advancePhase r).1.pot = r.pot := by
  unfold advancePhase
  dsimp only
  split_ifs <;> rfl

/-- `nextTurn` leaves the seated players untouched. -/
theorem nextTurn_players (r : Room) : (nextTurn r).1.players = r.players := by
  unfold nextTurn
  dsimp only
  split_ifs
  · rfl
  · exact advancePhase_players _
  · rfl

/-- `nextTurn` leaves the pot untouched. -/
theorem nextTurn_pot (r : Room) : (nextTurn r).1.pot = r.pot := by
  unfold nextTurn
  dsimp only
  split_ifs
  · rfl
  · exact advancePhase_pot _
  · rfl

/-- When the turn gate passes, the acting seat is found and not folded,
and the phase is not a discard phase, `playerAction` is the betting
switch. -/
theorem playerAction_eq_bettingBranch (r : Room) (sid : String) (pl : SPlayer)
    (inp : ActionInput)
    (hturn : ((r.players[r.turnIndex]?).map (fun p => p.id)) = some sid)
    (hfind : r.players.find? (fun p => p.id == sid) = some pl)
    (hnf : pl.folded = false)
    (hph : phaseEndsWith r.phase "discard" = false) :
    playerAction r sid inp = bettingBranch r sid pl inp := by
  unfold playerAction
  rw [if_neg (not_not_intro hturn), hfind]
  dsimp only
  rw [hnf]
  rw [if_neg Bool.false_ne_true]
  rw [hph]
  rw [if_neg Bool.false_ne_true]

/-- When the turn gate passes, the acting seat is found and not folded,
and the phase IS a discard phase, `playerAction` is the discard
sub-handler. -/
theorem playerAction_eq_discardBranch (r : Room) (sid : String) (pl : SPlayer)
    (inp : ActionInput)
    (hturn : ((r.players[r.turnIndex]?).map (fun p => p.id)) = some sid)
    (hfind : r.players.find? (fun p => p.id == sid) = some pl)
    (hnf : pl.folded = false)
    (hph : phaseEndsWith r.phase "discard" = true) :
    playerAction r sid inp = discardBranch r sid inp := by
  unfold playerAction
  rw [if_neg (not_not_intro hturn), hfind]
  dsimp only
  rw [hnf]
  rw [if_neg Bool.false_ne_true]
  rw [hph]
  rw [if_pos rfl]

/-- The discard sub-handler conserves pot + Σ chips. -/
theorem discardBranch_potChips (r : Room) (sid : String) (inp : ActionInput) :
    potChips (discardBranch r sid inp).1 = potChips r := by
  unfold discardBranch
  dsimp only
  repeat' split
  all_goals
    first
    | rfl
    | (simp only [potChips, advancePhase_players, advancePhase_pot]
       rw [sumChips_updateFirst_hand])

/-- The betting switch conserves pot + Σ chips on every non-fold action,
provided the acting seat exists. -/
theorem bettingBranch_potChips (r : Room) (sid : String) (player : SPlayer) (inp : ActionInput)
    (hfind : (r.players.find? (fun p => p.id == sid)).isSome = true)
    (hact : inp.action ≠ "fold") :
    potChips (bettingBranch r sid player inp).1 = potChips r := by
  unfold bettingBranch
  by_cases h1 : inp.action = "fold"
  · exact absurd h1 hact
  rw [if_neg h1]
  by_cases h2 : inp.action = "check"
  · rw [if_pos h2]
    split_ifs
    · rfl
    · simp only [potChips, nextTurn_players, nextTurn_pot]
  rw [if_neg h2]
  by_cases h3 : inp.action = "call"
  · rw [if_pos h3]
    dsimp only
    split_ifs
    · rfl
    · simp only [potChips, nextTurn_players, nextTurn_pot]
      rw [sumChips_updateFirst_chips _ _ _ hfind]
      ring
  rw [if_neg h3]
  by_cases h4 : inp.action = "raise"
  · rw [if_pos h4]
    cases ham : inp.amount with
    | none => rfl
    | some a =>
      dsimp only
      split_ifs
      · rfl
      · rfl
      · simp only [potChips, nextTurn_players, nextTurn_pot]
        rw [sumChips_updateFirst_chips _ _ _ hfind]
        ring
  rw [if_neg h4]

/-- A processed fold raises pot + Σ chips by the folder's tracked bet:
the pot gains `getBet r.bets sid` while no chips leave any stack. -/
theorem bettingBranch_fold_potChips (r : Room) (sid : String) (player : SPlayer)
    (inp : ActionInput) (hact : inp.action = "fold") :
    potChips (bettingBranch r sid player inp).1 = potChips r + getBet r.bets sid := by
  unfold bettingBranch
  rw [if_pos hact]
  simp only [potChips, nextTurn_players, nextTurn_pot]
  rw [sumChips_updateFirst_folded]
  ring

/-- Dealing preserves the seat count. -/
theorem dealHands_length (ps : List SPlayer) (deck : List Card) :
    (dealHands ps deck).1.length = ps.length := by
  induction ps generalizing deck with
  | nil => rfl
  | cons p rest ih => simp [dealHands, ih]

/-- Dealing preserves the chip sum. -/
theorem dealHands_sumChips (ps : List SPlayer) (deck : List Card) :
    sumChips (dealHands ps deck).1 = sumChips ps := by
  induction ps generalizing deck with
  | nil => rfl
  | cons p rest ih => simp [dealHands, sumChips_cons, ih]

/-- `modifyIdx` preserves the seat count. -/
theorem modifyIdx_length (ps : List SPlayer) (i : Nat) (f : SPlayer → SPlayer) :
    (modifyIdx ps i f).length = ps.length := by
  unfold modifyIdx
  cases h : ps[i]? with
  | none => rfl
  | some p => simp

/-- Debiting `c` chips from an in-range seat lowers the chip sum by `c`. -/
theorem sumChips_modifyIdx_sub (ps : List SPlayer) (i : Nat) (c : Int) (hi : i < ps.length) :
    sumChips (modifyIdx ps i (fun p => { p with chips := p.chips - c })) = sumChips ps - c := by
  induction ps generalizing i with
  | nil => simp at hi
  | cons p rest ih =>
    cases i with
    | zero =>
      simp [modifyIdx, sumChips_cons]
      ring
    | succ j =>
      have hj : j < rest.length := by simpa using hi
      have hcons : modifyIdx (p :: rest) (j + 1) (fun q => { q with chips := q.chips - c }) =
          p :: modifyIdx rest j (fun q => { q with chips := q.chips - c }) := by
        unfold modifyIdx
        cases h : rest[j]? with
        | none => simp [List.getElem?_cons_succ, h]
        | some q => simp [List.getElem?_cons_succ, h]
      rw [hcons, sumChips_cons, sumChips_cons, ih j hj]
      ring

/-- Blind posting at hand start: the two blinds leave the pot holding
exactly the chips debited, so pot + Σ chips equals the chip sum the seats
brought into the hand (the previous pot is reset, as in the source). -/
theorem startHand_potChips (d : List Card) (r : Room) (hne : r.players ≠ []) :
    potChips (startHand d r).1 = sumChips r.players := by
  have hn : 0 < r.players.length := List.length_pos.mpr hne
  have hx : ∀ x : Int, (x % (r.players.length : Int)).toNat < r.players.length := by
    intro x
    have h0 : (0 : Int) < (r.players.length : Int) := by exact_mod_cast hn
    have h1 := Int.emod_nonneg x (ne_of_gt h0)
    have h2 := Int.emod_lt_of_pos x h0
    omega
  unfold startHand
  dsimp only
  simp only [potChips]
  rw [sumChips_modifyIdx_sub]
  · rw [sumChips_modifyIdx_sub]
    · rw [dealHands_sumChips]
      unfold SMALL_BLIND BIG_BLIND
      ring
    · rw [dealHands_length]
      exact hx _
  · rw [modifyIdx_length, dealHands_length]
    exact hx _

/-- Claim C2, amended.  The spec's quantity pot + Σ bets + Σ chips is NOT
invariant (see `C2_counterexample`): the code moves chips into the pot at
blind/call/raise time while `bets` is a memo of amounts already banked.
The quantity the code conserves is pot + Σ chips: (1) hand start with its
blind posting re-establishes it from the seats' chips, (2) every
`playerAction` other than a fold preserves it, and (3) a processed fold
increases it by the folder's tracked bet — the double count recorded
under C4, which rules out any conservation law across folds. -/
theorem C2_amended_conservation :
    (∀ (d : List Card) (r : Room), r.players ≠ [] →
       potChips (startHand d r).1 = sumChips r.players) ∧
    (∀ (r : Room) (sid : String) (inp : ActionInput), inp.action ≠ "fold" →
       potChips (playerAction r sid inp).1 = potChips r) ∧
    (∀ (r : Room) (sid : String) (pl : SPlayer),
       ((r.players[r.turnIndex]?).map (fun p => p.id)) = some sid →
       r.players.find? (fun p => p.id == sid) = some pl →
       pl.folded = false →
       phaseEndsWith r.phase "discard" = false →
       potChips (playerAction r sid foldInp).1 = potChips r + getBet r.bets sid) := by
  refine ⟨startHand_potChips, ?_, ?_⟩
  · intro r sid inp hact
    unfold playerAction
    split
    · rfl
    · split
      · rfl
      · next player heq =>
        split
        · rfl
        · split
          · exact discardBranch_potChips r sid inp
          · exact bettingBranch_potChips r sid player inp (by rw [heq]; rfl) hact
  · intro r sid pl hturn hfind hnf hph
    rw [playerAction_eq_bettingBranch r sid pl foldInp hturn hfind hnf hph]
    exact bettingBranch_fold_potChips r sid pl foldInp rfl

/-- Witness for C2 (amended): a concrete call conserves pot + Σ chips,
and a concrete fold inflates it by the folder's tracked bet of 2. -/
theorem C2_amended_conservation_witness :
    potChips (playerAction c2Room "A" callInp).1 = potChips c2Room ∧
    potChips (playerAction c4Room "A" foldInp).1 = potChips c4Room + getBet c4Room.bets "A" :=
  ⟨C2_amended_conservation.2.1 c2Room "A" callInp (by decide),
   C2_amended_conservation.2.2 c4Room "A" (mkP "A" 198 [] false)
     (by decide) (by decide) (by decide) (by decide)⟩

/-- `updateFirst` on a matching head replaces it. -/
theorem updateFirst_cons_pos {q : SPlayer} {rest : List SPlayer} {id : String}
    {f : SPlayer → SPlayer} (hq : (q.id == id) = true) :
    updateFirst (q :: rest) id f = f q :: rest := by
  simp [updateFirst, hq]

/-- `updateFirst` on a non-matching head skips it. -/
theorem updateFirst_cons_neg {q : SPlayer} {rest : List SPlayer} {id : String}
    {f : SPlayer → SPlayer} (hq : (q.id == id) = false) :
    updateFirst (q :: rest) id f = q :: updateFirst rest id f := by
  simp [updateFirst, hq]

/-- Unfolding of `getBet` over a cons. -/
theorem getBet_cons (x : String × Int) (rest : List (String × Int)) (id : String) :
    getBet (x :: rest) id = if (x.1 == id) = true then x.2 else getBet rest id := by
  unfold getBet
  cases hb : (x.1 == id) with
  | true => simp [List.find?_cons, hb]
  | false => simp [List.find?_cons, hb]

/-- With pairwise-distinct connection ids, the `find`-by-id lookup returns
exactly the element sitting at the turn index. -/
theorem find?_eq_of_nodup (ps : List SPlayer) (i : Nat) (pl : SPlayer)
    (hnd : (ps.map (fun p => p.id)).Nodup) (hget : ps[i]? = some pl) :
    ps.find? (fun p => p.id == pl.id) = some pl := by
  induction ps generalizing i with
  | nil => simp at hget
  | cons q rest ih =>
    cases i with
    | zero =>
      simp only [List.getElem?_cons_zero, Option.some_inj] at hget
      subst hget
      simp [List.find?_cons]
    | succ j =>
      have hget2 : rest[j]? = some pl := by rwa [List.getElem?_cons_succ] at hget
      have hmem : pl ∈ rest := by
        rcases List.getElem?_eq_some.mp hget2 with ⟨h, hh⟩
        exact hh ▸ List.getElem_mem h
      simp only [List.map_cons, List.nodup_cons] at hnd
      have hqid : (q.id == pl.id) = false := by
        simp only [beq_eq_false_iff_ne, ne_eq]
        intro hc
        exact hnd.1 (hc ▸ List.mem_map_of_mem _ hmem)
      rw [List.find?_cons, hqid]
      exact ih j hnd.2 hget2

/-- With pairwise-distinct connection ids, mutating through the found
reference is exactly a `set` at that element's index. -/
theorem updateFirst_eq_set (ps : List SPlayer) (i : Nat) (pl : SPlayer) (f : SPlayer → SPlayer)
    (hnd : (ps.map (fun p => p.id)).Nodup) (hget : ps[i]? = some pl) :
    updateFirst ps pl.id f = ps.set i (f pl) := by
  induction ps generalizing i with
  | nil => simp at hget
  | cons q rest ih =>
    cases i with
    | zero =>
      simp only [List.getElem?_cons_zero, Option.some_inj] at hget
      subst hget
      rw [updateFirst_cons_pos (by simp)]
      rfl
    | succ j =>
      have hget2 : rest[j]? = some pl := by rwa [List.getElem?_cons_succ] at hget
      have hmem : pl ∈ rest := by
        rcases List.getElem?_eq_some.mp hget2 with ⟨h, hh⟩
        exact hh ▸ List.getElem_mem h
      simp only [List.map_cons, List.nodup_cons] at hnd
      have hqid : (q.id == pl.id) = false := by
        simp only [beq_eq_false_iff_ne, ne_eq]
        intro hc
        exact hnd.1 (hc ▸ List.mem_map_of_mem _ hmem)
      rw [updateFirst_cons_neg hqid, List.set_cons_succ, ih j hnd.2 hget2]

/-- Overwriting one key of the bets object leaves other keys' lookups
unchanged. -/
theorem getBet_map_overwrite_ne (bets : List (String × Int)) (id id2 : String) (v : Int)
    (hne : id2 ≠ id) :
    getBet (bets.map (fun p => if (p.1 == id) = true then (id, v) else p)) id2 =
      getBet bets id2 := by
  induction bets with
  | nil => rfl
  | cons p rest ih =>
    simp only [List.map_cons]
    cases hb : (p.1 == id) with
    | true =>
      have hp1 : p.1 = id := by simpa using hb
      have hc1 : ((id, v).1 == id2) = false := by
        simp only [beq_eq_false_iff_ne, ne_eq]
        exact fun hc => hne hc.symm
      have hc2 : (p.1 == id2) = false := by
        simp only [beq_eq_false_iff_ne, ne_eq, hp1]
        exact fun hc => hne hc.symm
      simp only [hb, if_true, reduceIte]
      rw [getBet_cons, getBet_cons, if_neg (by simp [hc1]), if_neg (by simp [hc2])]
      exact ih
    | false =>
      simp only [hb, Bool.false_eq_true, if_false, reduceIte]
      rw [getBet_cons, getBet_cons]
      by_cases hp2 : (p.1 == id2) = true
      · rw [if_pos hp2, if_pos hp2]
      · rw [if_neg hp2, if_neg hp2]
        exact ih

/-- Overwriting a present key makes its lookup return the new value. -/
theorem getBet_map_overwrite_self (bets : List (String × Int)) (id : String) (v : Int)
    (h : (bets.find? (fun p => p.1 == id)).isSome = true) :
    getBet (bets.map (fun p => if (p.1 == id) = true then (id, v) else p)) id = v := by
  induction bets with
  | nil => simp at h
  | cons p rest ih =>
    simp only [List.map_cons]
    cases hb : (p.1 == id) with
    | true =>
      simp only [hb, if_true, reduceIte]
      rw [getBet_cons, if_pos (by simp)]
    | false =>
      have h2 : (rest.find? (fun q => q.1 == id)).isSome = true := by
        rw [List.find?_cons, hb] at h
        exact h
      simp only [hb, Bool.false_eq_true, if_false, reduceIte]
      rw [getBet_cons, if_neg (by simp [hb])]
      exact ih h2

/-- `bets[id] = v` followed by `bets[id] || 0` reads back `v`. -/
theorem getBet_setBet_self (bets : List (String × Int)) (id : String) (v : Int) :
    getBet (setBet bets id v) id = v := by
  unfold setBet
  split_ifs with h
  · exact getBet_map_overwrite_self bets id v h
  · induction bets with
    | nil =>
      rw [List.nil_append, getBet_cons, if_pos (by simp)]
    | cons p rest ih =>
      cases hb : (p.1 == id) with
      | true =>
        exfalso
        exact h (by rw [List.find?_cons, hb]; rfl)
      | false =>
        have h2 : ¬(rest.find? (fun q => q.1 == id)).isSome = true := by
          rw [List.find?_cons, hb] at h
          exact h
        rw [List.cons_append, getBet_cons, if_neg (by simp [hb])]
        exact ih h2

/-- `bets[id] = v` does not disturb `bets[id2] || 0` for another key. -/
theorem getBet_setBet_ne (bets : List (String × Int)) (id id2 : String) (v : Int)
    (hne : id2 ≠ id) :
    getBet (setBet bets id v) id2 = getBet bets id2 := by
  unfold setBet
  split_ifs with h
  · exact getBet_map_overwrite_ne bets id id2 v hne
  · unfold getBet
    rw [List.find?_append]
    have hnil : List.find? (fun q => q.1 == id2) [(id, v)] = none := by
      simp
      exact fun hc => hne hc.symm
    rw [hnil]
    cases List.find? (fun q => q.1 == id2) bets <;> rfl

/-- The seed is a lower bound of a left max-fold. -/
theorem le_foldl_max (xs : List Int) (acc : Int) : acc ≤ xs.foldl max acc := by
  induction xs generalizing acc with
  | nil => exact le_refl _
  | cons y ys ih =>
    calc acc ≤ max acc y := le_max_left _ _
    _ ≤ ys.foldl max (max acc y) := ih _

/-- Every member is a lower bound of a left max-fold. -/
theorem mem_le_foldl_max (xs : List Int) (x : Int) (h : x ∈ xs) :
    ∀ acc, x ≤ xs.foldl max acc := by
  induction xs with
  | nil => simp at h
  | cons y ys ih =>
    intro acc
    rcases List.mem_cons.mp h with rfl | hm
    · calc x ≤ max acc x := le_max_right _ _
      _ ≤ ys.foldl max (max acc x) := le_foldl_max _ _
    · exact ih hm _

/-- Every member of a bet list is at most `Math.max(...bets)`. -/
theorem le_maxOf_of_mem (l : List Int) (x : Int) (h : x ∈ l) : x ≤ maxOf l := by
  cases l with
  | nil => simp at h
  | cons y ys =>
    unfold maxOf
    rcases List.mem_cons.mp h with rfl | hm
    · exact le_foldl_max _ _
    · exact mem_le_foldl_max _ _ hm _

/-- Two distinct members force at least two seats. -/
theorem one_lt_length_of_two_mem {a b : SPlayer} {l : List SPlayer}
    (ha : a ∈ l) (hb : b ∈ l) (hne : a ≠ b) : 1 < l.length := by
  cases l with
  | nil => simp at ha
  | cons x xs =>
    cases xs with
    | nil =>
      simp only [List.mem_singleton] at ha hb
      exact absurd (ha.trans hb.symm) hne
    | cons y ys =>
      simp only [List.length_cons]
      omega

/-- When at least two active seats remain and some active bet differs from
the round maximum, `nextTurn` only moves the turn pointer: no phase
advance and no other field changes. -/
theorem nextTurn_no_advance (r : Room)
    (h2 : 1 < (r.players.filter (fun p => !p.folded)).length)
    (hne : ((r.players.filter (fun p => !p.folded)).map (fun p => getBet r.bets p.id)).all
        (fun b => b == maxOf ((r.players.filter (fun p => !p.folded)).map
          (fun p => getBet r.bets p.id))) = false) :
    (nextTurn r).1 = { r with turnIndex := (scanGo r.players r.turnIndex).1 } := by
  unfold nextTurn
  dsimp only
  rw [if_neg (by omega)]
  rw [hne]
  simp

/-- A successful indexed lookup witnesses membership. -/
theorem mem_of_getElem?_eq {α : Type} {l : List α} {i : Nat} {a : α}
    (h : l[i]? = some a) : a ∈ l := by
  rcases List.getElem?_eq_some.mp h with ⟨hh, rfl⟩
  exact List.getElem_mem hh

/-- Setting an index to the value it already holds is the identity. -/
theorem set_getElem?_self {α : Type} {l : List α} {i : Nat} {a : α}
    (h : l[i]? = some a) : l.set i a = l := by
  apply List.ext_getElem?
  intro n
  by_cases hn : n = i
  · subst hn
    rcases List.getElem?_eq_some.mp h with ⟨hlt, _⟩
    rw [List.getElem?_set_self hlt, h]
  · rw [List.getElem?_set_ne (fun hc => hn hc.symm)]

/-- Claim C5, amended.  A legal raise (amount above `currentBet`, enough
chips) moves the delta into the pot, sets `currentBet` and the raiser's
tracked bet to the amount, and advances only the turn pointer — but the
claim's "resets the betting-round closure anchor to the seat after the
raiser" is FALSE (see `C5_counterexample`): `startingTurnIndex` is left
exactly as it was, being assigned only at hand start and at entry to a
betting phase, so the round still closes when the pointer returns to that
original anchor with all non-folded bets equal to `currentBet`.  Stated
here with a second active seat `q` whose tracked bet is below the raise
(always the case after a genuine raise), which is what keeps the round
open through `nextTurn`. -/
theorem C5_amended_raise :
    ∀ (r : Room) (pl q : SPlayer) (a : Int),
      (r.players.map (fun p => p.id)).Nodup →
      r.players[r.turnIndex]? = some pl →
      pl.folded = false →
      phaseEndsWith r.phase "discard" = false →
      a ≠ 0 →
      r.currentBet < a →
      a - getBet r.bets pl.id ≤ pl.chips →
      q ∈ r.players →
      q.folded = false →
      q.id ≠ pl.id →
      getBet r.bets q.id < a →
      ((playerAction r pl.id ⟨"raise", some a, none⟩).1.currentBet = a ∧
       getBet (playerAction r pl.id ⟨"raise", some a, none⟩).1.bets pl.id = a ∧
       (playerAction r pl.id ⟨"raise", some a, none⟩).1.startingTurnIndex =
         r.startingTurnIndex ∧
       (playerAction r pl.id ⟨"raise", some a, none⟩).1.phase = r.phase ∧
       (playerAction r pl.id ⟨"raise", some a, none⟩).1.pot =
         r.pot + (a - getBet r.bets pl.id) ∧
       chipsOf (playerAction r pl.id ⟨"raise", some a, none⟩).1 pl.id =
         pl.chips - (a - getBet r.bets pl.id)) := by
  intro r pl q a hnd hget hnf hph ha0 hgt hchips hq hqf hqid hqb
  have hturn : ((r.players[r.turnIndex]?).map (fun p => p.id)) = some pl.id := by
    rw [hget]
    rfl
  have hfind := find?_eq_of_nodup r.players r.turnIndex pl hnd hget
  rw [playerAction_eq_bettingBranch r pl.id pl _ hturn hfind hnf hph]
  unfold bettingBranch
  rw [if_neg (by simp), if_neg (by simp), if_neg (by simp), if_pos rfl]
  dsimp only
  rw [if_neg (by omega), if_neg (by omega)]
  rw [updateFirst_eq_set r.players r.turnIndex pl _ hnd hget]
  rcases List.getElem?_eq_some.mp hget with ⟨hi, hgete⟩
  dsimp only
  set fpl : SPlayer :=
    (⟨pl.id, pl.name, pl.hand, pl.chips - (a - getBet r.bets pl.id), pl.folded⟩ : SPlayer)
    with hfpl
  have hget2 : (r.players.set r.turnIndex fpl)[r.turnIndex]? = some fpl :=
    List.getElem?_set_self hi
  have hmem1 : fpl ∈ r.players.set r.turnIndex fpl := mem_of_getElem?_eq hget2
  rcases List.getElem?_of_mem hq with ⟨jq, hjq⟩
  have hjqne : jq ≠ r.turnIndex := by
    intro hc
    subst hc
    rw [hjq] at hget
    have : q = pl := by injection hget
    exact hqid (by rw [this])
  have hmemq : q ∈ r.players.set r.turnIndex fpl := by
    apply mem_of_getElem?_eq
    rw [List.getElem?_set_ne (fun hc => hjqne hc.symm)]
    exact hjq
  have hfilter1 : fpl ∈ (r.players.set r.turnIndex fpl).filter (fun p => !p.folded) := by
    apply List.mem_filter.mpr
    refine ⟨hmem1, ?_⟩
    show (!pl.folded) = true
    rw [hnf]
    rfl
  have hfilterq : q ∈ (r.players.set r.turnIndex fpl).filter (fun p => !p.folded) := by
    apply List.mem_filter.mpr
    refine ⟨hmemq, ?_⟩
    rw [hqf]
    rfl
  have hne2 : fpl ≠ q := by
    intro hc
    apply hqid
    rw [← hc]
  have h2 : 1 < ((r.players.set r.turnIndex fpl).filter (fun p => !p.folded)).length :=
    one_lt_length_of_two_mem hfilter1 hfilterq (fun hc => hne2 hc)
  have hbq : getBet (setBet r.bets pl.id a) q.id = getBet r.bets q.id :=
    getBet_setBet_ne r.bets pl.id q.id a hqid
  have hbp : getBet (setBet r.bets pl.id a) fpl.id = a :=
    getBet_setBet_self r.bets pl.id a
  have amem : a ∈ ((r.players.set r.turnIndex fpl).filter (fun p => !p.folded)).map
      (fun p => getBet (setBet r.bets pl.id a) p.id) :=
    List.mem_map.mpr ⟨fpl, hfilter1, hbp⟩
  have qmem : getBet r.bets q.id ∈
      ((r.players.set r.turnIndex fpl).filter (fun p => !p.folded)).map
        (fun p => getBet (setBet r.bets pl.id a) p.id) :=
    List.mem_map.mpr ⟨q, hfilterq, hbq⟩
  have hmax := le_maxOf_of_mem _ a amem
  have hallf : (((r.players.set r.turnIndex fpl).filter (fun p => !p.folded)).map
      (fun p => getBet (setBet r.bets pl.id a) p.id)).all
        (fun b => b == maxOf (((r.players.set r.turnIndex fpl).filter
          (fun p => !p.folded)).map (fun p => getBet (setBet r.bets pl.id a) p.id))) =
      false := by
    cases hall : (((r.players.set r.turnIndex fpl).filter (fun p => !p.folded)).map
        (fun p => getBet (setBet r.bets pl.id a) p.id)).all
          (fun b => b == maxOf (((r.players.set r.turnIndex fpl).filter
            (fun p => !p.folded)).map (fun p => getBet (setBet r.bets pl.id a) p.id)))
    · rfl
    · exfalso
      have hthis := List.all_eq_true.mp hall _ qmem
      have heq2 : getBet r.bets q.id = maxOf (((r.players.set r.turnIndex fpl).filter
          (fun p => !p.folded)).map (fun p => getBet (setBet r.bets pl.id a) p.id)) := by
        simpa using hthis
      omega
  rw [nextTurn_no_advance _ h2 hallf]
  refine ⟨rfl, getBet_setBet_self r.bets pl.id a, rfl, rfl, rfl, ?_⟩
  have hmapget : (r.players.map (fun p => p.id))[r.turnIndex]? = some fpl.id := by
    rw [List.getElem?_map, hget]
    rfl
  have hnd2 : ((r.players.set r.turnIndex fpl).map (fun p => p.id)).Nodup := by
    rw [List.map_set, set_getElem?_self hmapget]
    exact hnd
  have hfind2 : (r.players.set r.turnIndex fpl).find? (fun p => p.id == pl.id) =
      some fpl :=
    find?_eq_of_nodup _ r.turnIndex fpl hnd2 hget2
  unfold chipsOf
  rw [hfind2]
  rfl

/-- Witness for C5 (amended): the concrete raise of `C5_counterexample`
leaves the closure anchor at seat 0. -/
theorem C5_amended_raise_witness :
    (playerAction c5Room "B" ⟨"raise", some 10, none⟩).1.startingTurnIndex =
      c5Room.startingTurnIndex :=
  (C5_amended_raise c5Room (mkP "B" 100 [] false) (mkP "C" 100 [] false) 10
    (by decide) (by decide) (by decide) (by decide) (by decide) (by decide)
    (by decide) (by decide) (by decide) (by decide) (by decide)).2.2.1

/-- Claim C7, amended.  The capacity check runs BEFORE the already-seated
check, so at a full 5 seats EVERY join — including one by an
already-seated handle — is rejected with `roomFull` (see
`C7_counterexample`); the error-free no-op for an already-seated handle
holds only while the room has fewer than 5 seats.  A join by a new handle
at 5 seats is rejected with `roomFull`, as the claim states. -/
theorem C7_amended_join :
    ∀ (d : List Card) (r : Room) (sid nm : String),
      (r.players.length ≥ 5 → joinRoom d r sid nm = (r, [Emission.roomFull sid])) ∧
      (r.players.length < 5 → (r.players.find? (fun p => p.id == sid)).isSome = true →
        joinRoom d r sid nm = (r, [])) := by
  intro d r sid nm
  constructor
  · intro h5
    unfold joinRoom
    rw [if_pos h5]
  · intro hlt hseat
    unfold joinRoom
    rw [if_neg (by omega), if_pos hseat]

/-- Witness for C7 (amended): a full room rejects any join with
`roomFull`; a seated handle re-joining a four-seat room is a silent
no-op. -/
theorem C7_amended_join_witness :
    joinRoom [] full5Room "p9" "n" = (full5Room, [Emission.roomFull "p9"]) ∧
    joinRoom [] fourRoom "p1" "n" = (fourRoom, []) :=
  ⟨(C7_amended_join [] full5Room "p9" "n").1 (by decide),
   (C7_amended_join [] fourRoom "p1" "n").2 (by decide) (by decide)⟩

/-- Pointwise `pvEquiv` lists carry the same connection ids. -/
theorem ids_eq_of_pvEquiv (viewer : String) :
    ∀ (l1 l2 : List SPlayer), l1.length = l2.length →
      (List.zip l1 l2).all (fun pq => pvEquiv viewer pq.1 pq.2) = true →
      l1.map (fun p => p.id) = l2.map (fun p => p.id) := by
  intro l1
  induction l1 with
  | nil =>
    intro l2 hlen _
    cases l2 with
    | nil => rfl
    | cons q t2 => simp at hlen
  | cons p t1 ih =>
    intro l2 hlen hall
    cases l2 with
    | nil => simp at hlen
    | cons q t2 =>
      simp only [List.zip_cons_cons, List.all_cons, Bool.and_eq_true] at hall
      have hid : p.id = q.id := by
        have := hall.1
        simp only [pvEquiv, Bool.and_eq_true, beq_iff_eq] at this
        exact this.1.1.1.1.1
      simp only [List.map_cons, hid]
      rw [ih t2 (by simpa using hlen) hall.2]


/-- The per-player view list of `emitGameState` is identical for two
player lists related pointwise by `pvEquiv`: each view depends only on
id, name, chips, folded flag, the viewer-visible hand data and the seat
index. -/
theorem viewList_eq (viewer : String) (bets : List (String × Int)) (di : Int) (L : Nat) :
    ∀ (n : Nat) (l1 l2 : List SPlayer), l1.length = l2.length →
      (List.zip l1 l2).all (fun pq => pvEquiv viewer pq.1 pq.2) = true →
      (List.enumFrom n l1).map (fun q =>
        ({ id := q.2.id, name := q.2.name, chips := q.2.chips, folded := q.2.folded,
           hand := if q.2.id == viewer then q.2.hand.map some
                   else List.replicate q.2.hand.length none,
           bet := getBet bets q.2.id,
           isDealer := di == (q.1 : Int),
           isSmallBlind := di != -1 && ((q.1 : Int) == (di + 1) % (L : Int)),
           isBigBlind := di != -1 && ((q.1 : Int) == (di + 2) % (L : Int)) } : PlayerView)) =
      (List.enumFrom n l2).map (fun q =>
        ({ id := q.2.id, name := q.2.name, chips := q.2.chips, folded := q.2.folded,
           hand := if q.2.id == viewer then q.2.hand.map some
                   else List.replicate q.2.hand.length none,
           bet := getBet bets q.2.id,
           isDealer := di == (q.1 : Int),
           isSmallBlind := di != -1 && ((q.1 : Int) == (di + 1) % (L : Int)),
           isBigBlind := di != -1 && ((q.1 : Int) == (di + 2) % (L : Int)) } : PlayerView)) := by
  intro n l1
  induction l1 generalizing n with
  | nil =>
    intro l2 hlen _
    cases l2 with
    | nil => rfl
    | cons q t2 => simp at hlen
  | cons p t1 ih =>
    intro l2 hlen hall
    cases l2 with
    | nil => simp at hlen
    | cons q t2 =>
      simp only [List.zip_cons_cons, List.all_cons, Bool.and_eq_true] at hall
      have hpv := hall.1
      simp only [pvEquiv, Bool.and_eq_true, beq_iff_eq] at hpv
      obtain ⟨⟨⟨⟨⟨hid, hname⟩, hchips⟩, hfold⟩, hhlen⟩, hcond⟩ := hpv
      simp only [List.enumFrom_cons, List.map_cons]
      have hhand : (if p.id == viewer then p.hand.map some
            else List.replicate p.hand.length none) =
          (if q.id == viewer then q.hand.map some
            else List.replicate q.hand.length none) := by
        cases hv : (p.id == viewer) with
        | true =>
          have hpv2 : p.hand = q.hand := by
            rcases Bool.or_eq_true_iff.mp hcond with hx | hx
            · exfalso
              rw [bne_iff_ne] at hx
              exact hx (by simpa using hv)
            · simpa using hx
          rw [hid] at hv
          rw [hv, hpv2]
        | false =>
          rw [hid] at hv
          rw [hv, hhlen]
          rfl
      rw [hhand, hid, hname, hchips, hfold]
      rw [ih (n + 1) t2 (by simpa using hlen) hall.2]


/-- Noninterference of `gameState` payloads: two rooms differing only in
opponents' hand contents produce identical payloads for the viewer. -/
theorem gameStatePayload_noninterference (r1 r2 : Room) (viewer : String)
    (h : sameUpToOpponentHands viewer r1 r2 = true) :
    gameStatePayloadFor r1 viewer = gameStatePayloadFor r2 viewer := by
  simp only [sameUpToOpponentHands, Bool.and_eq_true, beq_iff_eq] at h
  obtain ⟨⟨⟨⟨⟨⟨⟨⟨hlen, hall⟩, hcomm⟩, hpot⟩, hphase⟩, hti⟩, hcb⟩, hbets⟩, hdi⟩ := h
  have hti2 : r1.turnIndex = r2.turnIndex := by simpa using hti
  unfold gameStatePayloadFor
  have hids := ids_eq_of_pvEquiv viewer r1.players r2.players hlen hall
  have hturnid : (r1.players[r1.turnIndex]?).map (fun p => p.id) =
      (r2.players[r2.turnIndex]?).map (fun p => p.id) := by
    rw [← List.getElem?_map, ← List.getElem?_map, hids, hti2]
  have hplayers : r1.players.enum.map (fun q =>
      ({ id := q.2.id, name := q.2.name, chips := q.2.chips, folded := q.2.folded,
         hand := if q.2.id == viewer then q.2.hand.map some
                 else List.replicate q.2.hand.length none,
         bet := getBet r1.bets q.2.id,
         isDealer := r1.dealerIndex == (q.1 : Int),
         isSmallBlind := r1.dealerIndex != -1 &&
           ((q.1 : Int) == (r1.dealerIndex + 1) % (r1.players.length : Int)),
         isBigBlind := r1.dealerIndex != -1 &&
           ((q.1 : Int) == (r1.dealerIndex + 2) % (r1.players.length : Int)) } : PlayerView)) =
      r2.players.enum.map (fun q =>
      ({ id := q.2.id, name := q.2.name, chips := q.2.chips, folded := q.2.folded,
         hand := if q.2.id == viewer then q.2.hand.map some
                 else List.replicate q.2.hand.length none,
         bet := getBet r2.bets q.2.id,
         isDealer := r2.dealerIndex == (q.1 : Int),
         isSmallBlind := r2.dealerIndex != -1 &&
           ((q.1 : Int) == (r2.dealerIndex + 1) % (r2.players.length : Int)),
         isBigBlind := r2.dealerIndex != -1 &&
           ((q.1 : Int) == (r2.dealerIndex + 2) % (r2.players.length : Int)) } : PlayerView)) := by
    rw [← hbets, ← hdi, ← hlen]
    exact viewList_eq viewer r1.bets r1.dealerIndex r1.players.length 0
      r1.players r2.players hlen hall
  rw [hplayers, hcomm, hpot, hphase, hcb, hturnid]

/-- Claim C9: in every `gameState` emission the receiving player's own
hand is sent with its actual cards while every other player's hand is
replaced by a null-filled list of the same length (first conjunct, the
per-seat mask); consequently the payload sent to one player discloses no
opponent card identity, only hand sizes: two rooms that differ only in
the contents of opponents' hands produce the very same payload for the
viewer (second conjunct, noninterference). -/
theorem C9_hand_masking :
    (∀ (r : Room) (viewer : String) (i : Nat) (pl : SPlayer),
       r.players[i]? = some pl →
       ((gameStatePayloadFor r viewer).players[i]?).map (fun v => v.hand) =
         some (if (pl.id == viewer) = true then pl.hand.map some
               else List.replicate pl.hand.length none)) ∧
    (∀ (r1 r2 : Room) (viewer : String),
       sameUpToOpponentHands viewer r1 r2 = true →
       gameStatePayloadFor r1 viewer = gameStatePayloadFor r2 viewer) := by
  constructor
  · intro r viewer i pl hget
    unfold gameStatePayloadFor
    dsimp only
    rw [List.getElem?_map, List.enum, List.getElem?_enumFrom, hget]
    rfl
  · exact gameStatePayload_noninterference

/-- Witness for C9: viewer A of `c9RoomA` sees seat B's five cards as
five nulls, and changing B's five cards (room `c9RoomB`) leaves A's
payload identical. -/
theorem C9_hand_masking_witness :
    ((gameStatePayloadFor c9RoomA "A").players[1]?).map (fun v => v.hand) =
      some (if ((mkP "B" 198 [cK, cQ, cJ, c9, c7] false).id == "A") = true
            then (mkP "B" 198 [cK, cQ, cJ, c9, c7] false).hand.map some
            else List.replicate (mkP "B" 198 [cK, cQ, cJ, c9, c7] false).hand.length none) ∧
    gameStatePayloadFor c9RoomA "A" = gameStatePayloadFor c9RoomB "A" :=
  ⟨C9_hand_masking.1 c9RoomA "A" 1 (mkP "B" 198 [cK, cQ, cJ, c9, c7] false) (by decide),
   C9_hand_masking.2 c9RoomA c9RoomB "A" (by decide)⟩

/-- Inserting an id into a discard list (a JS `room.discards[id] = ...`
key write) makes the list contain that id. -/
theorem insertId_contains_self (ds : List String) (id : String) :
    (insertId ds id).contains id = true := by
  unfold insertId
  split_ifs with h
  · exact h
  · simp [List.contains_eq_any_beq]

/-- Replacing one seat by a player with the same id and folded flag does
not change the all-non-folded-players-have-discarded check. -/
theorem filter_all_set_congr (D : List String) :
    ∀ (ps : List SPlayer) (i : Nat) (pl p2 : SPlayer),
      ps[i]? = some pl → p2.id = pl.id → p2.folded = pl.folded →
      ((ps.set i p2).filter (fun p => !p.folded)).all (fun p => D.contains p.id) =
        (ps.filter (fun p => !p.folded)).all (fun p => D.contains p.id) := by
  intro ps
  induction ps with
  | nil => intro i pl p2 hget _ _; simp at hget
  | cons q rest ih =>
    intro i pl p2 hget hid hfold
    cases i with
    | zero =>
      simp only [List.getElem?_cons_zero, Option.some_inj] at hget
      subst hget
      rw [List.set_cons_zero]
      rw [List.filter_cons, List.filter_cons]
      rw [hfold]
      cases hf : q.folded with
      | true => rfl
      | false =>
        simp only [Bool.not_false, if_true, List.all_cons, hid]
    | succ j =>
      have hget2 : rest[j]? = some pl := by rwa [List.getElem?_cons_succ] at hget
      rw [List.set_cons_succ]
      rw [List.filter_cons, List.filter_cons]
      cases hf : q.folded with
      | true =>
        simp only [Bool.not_true, Bool.false_eq_true, if_false]
        exact ih j pl p2 hget2 hid hfold
      | false =>
        simp only [Bool.not_false, if_true, List.all_cons]
        rw [ih j pl p2 hget2 hid hfold]

/-- The discard-turn scan stops at the first non-folded seat: if some seat
at cyclic distance `dq ≤ fuel` from `cur` is non-folded, the scan lands a
positive cyclic distance `d ≤ dq` away from `cur`. -/
theorem discardScanAux_ne (ps : List SPlayer) :
    ∀ (f cur dq : Nat), 1 ≤ dq → dq ≤ f →
      foldedAt ps ((cur + dq) % ps.length) = false →
      ∃ d, 1 ≤ d ∧ d ≤ dq ∧ discardScanAux ps cur f = (cur + d) % ps.length := by
  intro f
  induction f with
  | zero => intro cur dq h1 h2 _; omega
  | succ f ih =>
    intro cur dq h1 h2 hw
    by_cases hf : foldedAt ps ((cur + 1) % ps.length) = true
    · have hdq : 2 ≤ dq := by
        by_contra hlt
        have hdq1 : dq = 1 := by omega
        rw [hdq1] at hw
        rw [hw] at hf
        cases hf
      have hw2 : foldedAt ps (((cur + 1) % ps.length + (dq - 1)) % ps.length) = false := by
        have : ((cur + 1) % ps.length + (dq - 1)) % ps.length = (cur + dq) % ps.length := by
          rw [Nat.mod_add_mod]
          congr 1
          omega
        rw [this]
        exact hw
      rcases ih ((cur + 1) % ps.length) (dq - 1) (by omega) (by omega) hw2 with
        ⟨d2, hd1, hd2, hres⟩
      refine ⟨d2 + 1, by omega, by omega, ?_⟩
      have hstep : discardScanAux ps cur (f + 1) =
          discardScanAux ps ((cur + 1) % ps.length) f := by
        simp only [discardScanAux, hf, if_true]
      rw [hstep, hres, Nat.mod_add_mod]
      congr 1
      omega
    · refine ⟨1, le_refl _, h1, ?_⟩
      simp only [discardScanAux]
      rw [if_neg hf]

/-- On a room whose phase is one of the three discard phases,
`advancePhase` moves to the following betting street, clears
`currentBet`, `bets` and `discards`, re-anchors `startingTurnIndex`, and
touches nothing else (stated over the players/discards update that the
discard handler performs just before calling it). -/
theorem advancePhase_discard_phase (ps : List SPlayer) (ds : List String)
    (r : Room) (ph : String)
    (hph : r.phase = some ph)
    (h3 : ph = "flop-discard" ∨ ph = "turn-discard" ∨ ph = "river-discard") :
    (advancePhase { r with players := ps, discards := ds }).1 =
      { r with players := ps, phase := some (bettingAfter ph), currentBet := 0,
               bets := [], discards := [],
               startingTurnIndex := r.turnIndex } := by
  rcases h3 with h | h | h <;> subst h <;>
    (unfold advancePhase
     dsimp only
     rw [hph]
     rw [if_neg (by decide)]
     rw [if_neg (by decide)]
     rw [if_neg (by decide)]
     rw [if_pos (by decide)]
     rfl)

/-- Claim C6 (amended discard contract): when it is seat `pl`'s turn in a
discard phase and `pl` submits one in-range index, the handler removes
that card (hand length drops by one) and draws NO replacement (the deck
is unchanged).  If every non-folded player has then discarded, the phase
advances to the next betting street and the discard record resets;
otherwise the phase and record persist, the turn pointer moves to a
different seat, and an identical repeat submission by `pl` is rejected
with the "Not your turn." error, so a second discard in the same phase is
impossible. -/
theorem C6_amended_discard :
    ∀ (r : Room) (pl : SPlayer) (i : Int) (ph : String),
      (r.players.map (fun p => p.id)).Nodup →
      r.players[r.turnIndex]? = some pl →
      pl.folded = false →
      r.phase = some ph →
      (ph = "flop-discard" ∨ ph = "turn-discard" ∨ ph = "river-discard") →
      0 ≤ i →
      i.toNat < pl.hand.length →
      ((handOf (playerAction r pl.id ⟨"discard", none, some [i]⟩).1 pl.id).length =
         pl.hand.length - 1 ∧
       (playerAction r pl.id ⟨"discard", none, some [i]⟩).1.deck = r.deck ∧
       (((r.players.filter (fun p => !p.folded)).all
           (fun p => (insertId r.discards pl.id).contains p.id)) = true →
         (playerAction r pl.id ⟨"discard", none, some [i]⟩).1.phase =
           some (bettingAfter ph) ∧
         (playerAction r pl.id ⟨"discard", none, some [i]⟩).1.discards = []) ∧
       (((r.players.filter (fun p => !p.folded)).all
           (fun p => (insertId r.discards pl.id).contains p.id)) = false →
         (playerAction r pl.id ⟨"discard", none, some [i]⟩).1.phase = r.phase ∧
         (playerAction r pl.id ⟨"discard", none, some [i]⟩).1.discards =
           insertId r.discards pl.id ∧
         (((playerAction r pl.id ⟨"discard", none, some [i]⟩).1.players[
             (playerAction r pl.id ⟨"discard", none, some [i]⟩).1.turnIndex]?).map
               (fun p => p.id)) ≠ some pl.id ∧
         playerAction (playerAction r pl.id ⟨"discard", none, some [i]⟩).1 pl.id
             ⟨"discard", none, some [i]⟩ =
           ((playerAction r pl.id ⟨"discard", none, some [i]⟩).1,
            [Emission.errorMessage pl.id "Not your turn."]))) := by
  intro r pl i ph hnd hget hnf hph hph3 hi0 hilen
  have hturn : ((r.players[r.turnIndex]?).map (fun p => p.id)) = some pl.id := by
    rw [hget]
    rfl
  have hfind := find?_eq_of_nodup r.players r.turnIndex pl hnd hget
  have hphd : phaseEndsWith r.phase "discard" = true := by
    rw [hph]
    rcases hph3 with h | h | h <;> rw [h] <;> decide
  rw [playerAction_eq_discardBranch r pl.id pl _ hturn hfind hnf hphd]
  unfold discardBranch
  rw [if_neg (not_not_intro rfl)]
  dsimp only
  rw [updateFirst_eq_set r.players r.turnIndex pl _ hnd hget]
  rcases List.getElem?_eq_some.mp hget with ⟨hlt, _⟩
  set fpl : SPlayer :=
    (⟨pl.id, pl.name, eraseAtInt pl.hand i, pl.chips, pl.folded⟩ : SPlayer) with hfpl
  have hallDeq := filter_all_set_congr (insertId r.discards pl.id) r.players
    r.turnIndex pl fpl hget rfl rfl
  rw [hallDeq]
  have hget2 : (r.players.set r.turnIndex fpl)[r.turnIndex]? = some fpl :=
    List.getElem?_set_self hlt
  have hmapget : (r.players.map (fun p => p.id))[r.turnIndex]? = some fpl.id := by
    rw [List.getElem?_map, hget]
    rfl
  have hnd2 : ((r.players.set r.turnIndex fpl).map (fun p => p.id)).Nodup := by
    rw [List.map_set, set_getElem?_self hmapget]
    exact hnd
  have hfind2 : (r.players.set r.turnIndex fpl).find? (fun p => p.id == pl.id) =
      some fpl := find?_eq_of_nodup _ r.turnIndex fpl hnd2 hget2
  have handlen : (eraseAtInt pl.hand i).length = pl.hand.length - 1 := by
    unfold eraseAtInt
    rw [if_pos ⟨hi0, hilen⟩]
    exact List.length_eraseIdx_of_lt hilen
  by_cases hallD : ((r.players.filter (fun p => !p.folded)).all
      (fun p => (insertId r.discards pl.id).contains p.id)) = true
  · rw [if_pos hallD]
    rw [advancePhase_discard_phase (r.players.set r.turnIndex fpl)
      (insertId r.discards pl.id) r ph hph hph3]
    refine ⟨?_, rfl, fun _ => ⟨rfl, rfl⟩, fun hfalse => by rw [hfalse] at hallD; cases hallD⟩
    unfold handOf
    rw [hfind2]
    exact handlen
  · rw [if_neg hallD]
    dsimp only
    have hallDf : ((r.players.filter (fun p => !p.folded)).all
        (fun p => (insertId r.discards pl.id).contains p.id)) = false := by
      cases hcase : ((r.players.filter (fun p => !p.folded)).all
          (fun p => (insertId r.discards pl.id).contains p.id))
      · rfl
      · exact absurd hcase hallD
    rcases List.all_eq_false.mp hallDf with ⟨q, hqmem, hqcont⟩
    have hqm : q ∈ r.players := (List.mem_filter.mp hqmem).1
    have hqnf : (!q.folded) = true := (List.mem_filter.mp hqmem).2
    have hqfold : q.folded = false := by
      cases hqq : q.folded
      · rfl
      · rw [hqq] at hqnf; cases hqnf
    have hqid : q.id ≠ pl.id := by
      intro hc
      apply hqcont
      rw [hc]
      exact insertId_contains_self r.discards pl.id
    rcases List.getElem?_of_mem hqm with ⟨jq, hjq⟩
    have hjlt : jq < r.players.length := (List.getElem?_eq_some.mp hjq).1
    have hjne : jq ≠ r.turnIndex := by
      intro hc
      subst hc
      rw [hjq] at hget
      injection hget with hh
      exact hqid (by rw [hh])
    have hset_j : (r.players.set r.turnIndex fpl)[jq]? = some q := by
      rw [List.getElem?_set_ne (fun hc => hjne hc.symm)]
      exact hjq
    have hn : 0 < r.players.length := by omega
    have hdq1 : 1 ≤ (if r.turnIndex < jq then jq - r.turnIndex
        else jq + r.players.length - r.turnIndex) := by
      split_ifs <;> omega
    have hdqn : (if r.turnIndex < jq then jq - r.turnIndex
        else jq + r.players.length - r.turnIndex) ≤ r.players.length - 1 := by
      split_ifs <;> omega
    have hmodjq : (r.turnIndex + (if r.turnIndex < jq then jq - r.turnIndex
        else jq + r.players.length - r.turnIndex)) %
          (r.players.set r.turnIndex fpl).length = jq := by
      rw [List.length_set]
      split_ifs with hc
      · rw [show r.turnIndex + (jq - r.turnIndex) = jq by omega]
        exact Nat.mod_eq_of_lt hjlt
      · rw [show r.turnIndex + (jq + r.players.length - r.turnIndex) =
          jq + r.players.length by omega]
        rw [Nat.add_mod_right]
        exact Nat.mod_eq_of_lt hjlt
    have hfolded_w : foldedAt (r.players.set r.turnIndex fpl)
        ((r.turnIndex + (if r.turnIndex < jq then jq - r.turnIndex
          else jq + r.players.length - r.turnIndex)) %
            (r.players.set r.turnIndex fpl).length) = false := by
      rw [hmodjq]
      unfold foldedAt
      rw [hset_j]
      exact hqfold
    rcases discardScanAux_ne (r.players.set r.turnIndex fpl)
        (r.players.set r.turnIndex fpl).length r.turnIndex
        (if r.turnIndex < jq then jq - r.turnIndex
          else jq + r.players.length - r.turnIndex)
        hdq1 (by rw [List.length_set]; omega) hfolded_w with ⟨d, hd1, hd2, hres⟩
    have hresne : discardScanAux (r.players.set r.turnIndex fpl) r.turnIndex
        (r.players.set r.turnIndex fpl).length ≠ r.turnIndex := by
      rw [hres, List.length_set]
      rcases Nat.lt_or_ge (r.turnIndex + d) r.players.length with hlt2 | hge2
      · rw [Nat.mod_eq_of_lt hlt2]
        omega
      · rw [Nat.mod_eq_sub_mod hge2, Nat.mod_eq_of_lt (by omega)]
        omega
    have hptr : (((r.players.set r.turnIndex fpl)[
        discardScanAux (r.players.set r.turnIndex fpl) r.turnIndex
          (r.players.set r.turnIndex fpl).length]?).map (fun p => p.id)) ≠
        some pl.id := by
      have hlen2 : discardScanAux (r.players.set r.turnIndex fpl) r.turnIndex
          (r.players.set r.turnIndex fpl).length <
          (r.players.set r.turnIndex fpl).length := by
        rw [hres]
        exact Nat.mod_lt _ (by rw [List.length_set]; exact hn)
      rw [List.getElem?_eq_getElem hlen2]
      intro hc
      simp only [Option.map_some', Option.some.injEq] at hc
      have hmapnd := hnd2
      have hv1 : List.get ((r.players.set r.turnIndex fpl).map (fun p => p.id))
          ⟨discardScanAux (r.players.set r.turnIndex fpl) r.turnIndex
            (r.players.set r.turnIndex fpl).length,
           by rw [List.length_map]; exact hlen2⟩ =
          pl.id := by
        simp only [List.get_eq_getElem, List.getElem_map]
        exact hc
      have hv2 : List.get ((r.players.set r.turnIndex fpl).map (fun p => p.id))
          ⟨r.turnIndex, by rw [List.length_map, List.length_set]; exact hlt⟩ =
          pl.id := by
        simp only [List.get_eq_getElem, List.getElem_map]
        have := hget2
        rw [List.getElem?_eq_getElem (by rw [List.length_set]; exact hlt)] at this
        injection this with hthis
        rw [hthis]
      have := hmapnd.getElem_inj_iff.mp (hv1.trans hv2.symm)
      exact hresne this
    refine ⟨?_, rfl, ?_, ?_⟩
    · unfold handOf
      rw [hfind2]
      exact handlen
    · intro htrue
      exact absurd htrue hallD
    · intro hdummy
      refine ⟨rfl, rfl, hptr, ?_⟩
      unfold playerAction
      dsimp only
      rw [if_pos hptr]

/-- Witness for C6: in `c6Room` (flop-discard phase, seats A and B), A
discards index 0: the hand drops to 4 cards, the deck is untouched, and —
since B has not yet discarded — the phase stays, the turn moves off A,
and A's repeated discard is rejected with "Not your turn.". -/
theorem C6_amended_discard_witness :
    (handOf (playerAction c6Room "A" ⟨"discard", none, some [0]⟩).1 "A").length = 4 ∧
    (playerAction c6Room "A" ⟨"discard", none, some [0]⟩).1.deck = c6Room.deck ∧
    (((c6Room.players.filter (fun p => !p.folded)).all
        (fun p => (insertId c6Room.discards "A").contains p.id)) = true →
      (playerAction c6Room "A" ⟨"discard", none, some [0]⟩).1.phase =
        some (bettingAfter "flop-discard") ∧
      (playerAction c6Room "A" ⟨"discard", none, some [0]⟩).1.discards = []) ∧
    (((c6Room.players.filter (fun p => !p.folded)).all
        (fun p => (insertId c6Room.discards "A").contains p.id)) = false →
      (playerAction c6Room "A" ⟨"discard", none, some [0]⟩).1.phase = c6Room.phase ∧
      (playerAction c6Room "A" ⟨"discard", none, some [0]⟩).1.discards =
        insertId c6Room.discards "A" ∧
      (((playerAction c6Room "A" ⟨"discard", none, some [0]⟩).1.players[
          (playerAction c6Room "A" ⟨"discard", none, some [0]⟩).1.turnIndex]?).map
            (fun p => p.id)) ≠ some "A" ∧
      playerAction (playerAction c6Room "A" ⟨"discard", none, some [0]⟩).1 "A"
          ⟨"discard", none, some [0]⟩ =
        ((playerAction c6Room "A" ⟨"discard", none, some [0]⟩).1,
         [Emission.errorMessage "A" "Not your turn."])) :=
  C6_amended_discard c6Room (mkP "A" 100 [cK, cQ, cJ, c9, c7] false) 0 "flop-discard"
    (by decide) (by decide) (by decide) (by decide) (by decide) (by decide) (by decide)
